import Mathlib

/-!
Verification development for `tools/question_generator.py` (CircuitJS STACK
question generator).  The Python core is shallowly embedded: strings are
processed as `List Char`, Python dicts are association lists with
insert-or-update semantics, Python sets are duplicate-free lists used only
through membership, and Python floats are modelled as exact rationals
(`QNum`, an unnormalised numerator/denominator pair), so every definition
is executable by the kernel.
-/

namespace QGen

/-! ### Python string primitives

Python `str.strip` / `str.split` / `str.split(' ')`, re-implemented over
`List Char` by structural recursion so that concrete inputs evaluate.
-/

/-- Characters treated as whitespace by Python `str.strip()` and `str.split()`
(ASCII subset; the exports handled by the tool are ASCII). -/
def isPySpace (c : Char) : Bool :=
  c = ' ' || c = '\t' || c = '\n' || c = '\r' || c = '\x0b' || c = '\x0c'

/-- Python `line.strip()`. -/
def pyStrip (s : List Char) : List Char :=
  ((s.dropWhile isPySpace).reverse.dropWhile isPySpace).reverse

/-- Python `s.strip()` at `String` level. -/
def pyStripStr (s : String) : String := String.mk (pyStrip s.data)

/-- Python `text.split('\n')` (keeps empty pieces). -/
def splitLines (s : List Char) : List (List Char) := s.splitOn '\n'

/-- Python `line.split()` — split on whitespace runs, dropping empties. -/
def pySplitWs (s : List Char) : List (List Char) :=
  (s.splitOnP isPySpace).filter (fun t => t ≠ [])

/-- Python `line.split(' ')` — split on single spaces, keeping empties. -/
def pySplitSpace (s : List Char) : List (List Char) := s.splitOn ' '

/-- Python `line.split(' ', 1)[0]` for an already stripped line: the text up
to the first space. -/
def firstToken (line : List Char) : List Char := line.takeWhile (fun c => c ≠ ' ')

/-- Value of a digit string, most significant digit first. -/
def digitsVal (ds : List Char) : Nat :=
  ds.foldl (fun acc c => acc * 10 + (c.toNat - 48)) 0

/-- Python `int(token)`: optional surrounding whitespace, optional sign, then
a non-empty run of decimal digits.  (Underscore digit separators are not
modelled; no input relevant to the claims uses them.) -/
def pyInt? (s : List Char) : Option Int :=
  let t := pyStrip s
  match t with
  | '+' :: r => if r ≠ [] ∧ r.all Char.isDigit then some ((digitsVal r : Nat) : Int) else none
  | '-' :: r => if r ≠ [] ∧ r.all Char.isDigit then some (-((digitsVal r : Nat) : Int)) else none
  | r => if r ≠ [] ∧ r.all Char.isDigit then some ((digitsVal r : Nat) : Int) else none

/-! ### Decimal rendering (Python `str(int)` and the `%g` float format) -/

/-- Base-10 digits of `n`, least significant first (`[]` for `0`); the fuel
argument makes the recursion structural. -/
def natDigitsRevAux : Nat → Nat → List Nat
  | 0, _ => []
  | fuel + 1, n => if n = 0 then [] else (n % 10) :: natDigitsRevAux fuel (n / 10)

def natDigitsRev (n : Nat) : List Nat := natDigitsRevAux n n

def digitChar : Nat → Char
  | 0 => '0' | 1 => '1' | 2 => '2' | 3 => '3' | 4 => '4'
  | 5 => '5' | 6 => '6' | 7 => '7' | 8 => '8' | 9 => '9'
  | _ => '?'

/-- Decimal rendering of a natural number (Python `str(n)` / f-string
interpolation of a non-negative int). -/
def natRepr (n : Nat) : String :=
  if n = 0 then "0" else String.mk (((natDigitsRev n).reverse).map digitChar)

/-- Decimal rendering of an integer (Python `str(i)`). -/
def intRepr (i : Int) : String :=
  if i < 0 then "-" ++ natRepr i.natAbs else natRepr i.natAbs

theorem natDigitsRevAux_val (fuel : Nat) :
    ∀ n, n ≤ fuel → Nat.ofDigits 10 (natDigitsRevAux fuel n) = n := by
  induction fuel with
  | zero => intro n hn; interval_cases n; simp [natDigitsRevAux]
  | succ f ih =>
    intro n hn
    by_cases h0 : n = 0
    · simp [natDigitsRevAux, h0]
    · have hdiv : n / 10 ≤ f := by
        have h1 : n / 10 < n := Nat.div_lt_self (Nat.pos_of_ne_zero h0) (by norm_num)
        omega
      simp only [natDigitsRevAux, h0, if_false, Nat.ofDigits_cons, ih _ hdiv]
      omega

theorem natDigitsRev_val (n : Nat) : Nat.ofDigits 10 (natDigitsRev n) = n :=
  natDigitsRevAux_val n n le_rfl

theorem natDigitsRev_injective : Function.Injective natDigitsRev := by
  intro a b h
  have := natDigitsRev_val a
  rw [h, natDigitsRev_val] at this
  omega

theorem natDigitsRevAux_lt (fuel : Nat) :
    ∀ n d, d ∈ natDigitsRevAux fuel n → d < 10 := by
  induction fuel with
  | zero => intro n d hd; simp [natDigitsRevAux] at hd
  | succ f ih =>
    intro n d hd
    by_cases h0 : n = 0
    · simp [natDigitsRevAux, h0] at hd
    · simp only [natDigitsRevAux, h0, if_false, List.mem_cons] at hd
      rcases hd with h | h
      · omega
      · exact ih _ _ h

/-- Inverse reading of `natRepr` used only to prove injectivity. -/
def charDigit (c : Char) : Nat := c.toNat - 48

theorem map_mem_id {α : Type} (f : α → α) :
    ∀ (l : List α), (∀ x ∈ l, f x = x) → l.map f = l := by
  intro l h
  induction l with
  | nil => rfl
  | cons x xs ih =>
    simp only [List.map_cons, List.cons.injEq]
    exact ⟨h x (List.mem_cons_self x xs), ih fun y hy => h y (List.mem_cons_of_mem x hy)⟩

theorem charDigit_digitChar (d : Nat) (hd : d < 10) : charDigit (digitChar d) = d := by
  interval_cases d <;> decide

theorem natRepr_parse (n : Nat) :
    Nat.ofDigits 10 (((natRepr n).data.map charDigit).reverse) = n := by
  by_cases h0 : n = 0
  · subst h0; decide
  · simp only [natRepr, h0, if_false]
    have hlt : ∀ d ∈ (natDigitsRev n).reverse, d < 10 := by
      intro d hd
      exact natDigitsRevAux_lt n n d (List.mem_reverse.mp hd)
    have hmap : ((natDigitsRev n).reverse.map digitChar).map charDigit
        = (natDigitsRev n).reverse := by
      rw [List.map_map]
      apply map_mem_id
      intro d hd
      exact charDigit_digitChar d (hlt d hd)
    show Nat.ofDigits 10 ((((natDigitsRev n).reverse.map digitChar)).map charDigit).reverse = n
    rw [hmap, List.reverse_reverse, natDigitsRev_val]

theorem natRepr_injective : Function.Injective natRepr := by
  intro a b h
  have ha := natRepr_parse a
  rw [h, natRepr_parse] at ha
  omega

/-! ### Python dict / set / sorted models -/

/-- Python `d.get(k)` / `d[k]` on the association-list model of a dict. -/
def alookup {α β : Type} [DecidableEq α] : List (α × β) → α → Option β
  | [], _ => none
  | (k, v) :: rest, a => if k = a then some v else alookup rest a

/-- Python `d[k] = v`: replace in place if the key exists, else append. -/
def aInsert {α β : Type} [DecidableEq α] (k : α) (v : β) : List (α × β) → List (α × β)
  | [] => [(k, v)]
  | (k', v') :: rest => if k' = k then (k, v) :: rest else (k', v') :: aInsert k v rest

/-- Python `s.add(x)` on the list model of a set (membership is all that is
ever queried). -/
def sInsert {α : Type} [DecidableEq α] (x : α) (s : List α) : List α :=
  if x ∈ s then s else s ++ [x]

theorem mem_sInsert {α : Type} [DecidableEq α] {x y : α} {s : List α} :
    y ∈ sInsert x s ↔ y ∈ s ∨ y = x := by
  unfold sInsert
  by_cases h : x ∈ s
  · simp only [h, if_true]
    constructor
    · exact Or.inl
    · rintro (hy | rfl)
      · exact hy
      · exact h
  · simp [h]

theorem subset_sInsert {α : Type} [DecidableEq α] (x : α) (s : List α) :
    s ⊆ sInsert x s := fun _ hy => mem_sInsert.mpr (Or.inl hy)

theorem mem_sInsert_self {α : Type} [DecidableEq α] (x : α) (s : List α) :
    x ∈ sInsert x s := mem_sInsert.mpr (Or.inr rfl)

theorem mem_aInsert {α β : Type} [DecidableEq α] {k : α} {v : β} {m : List (α × β)} :
    ∀ {p : α × β}, p ∈ aInsert k v m → p = (k, v) ∨ p ∈ m := by
  induction m with
  | nil => intro p hp; simp [aInsert] at hp; exact Or.inl hp
  | cons q rest ih =>
    intro p hp
    rw [show aInsert k v (q :: rest)
        = if q.1 = k then (k, v) :: rest else q :: aInsert k v rest from rfl] at hp
    by_cases hq : q.1 = k
    · simp only [hq, if_true, List.mem_cons] at hp
      rcases hp with rfl | hp
      · exact Or.inl rfl
      · exact Or.inr (List.mem_cons_of_mem q hp)
    · simp only [hq, if_false, List.mem_cons] at hp
      rcases hp with rfl | hp
      · exact Or.inr (List.mem_cons_self _ _)
      · rcases ih hp with h | h
        · exact Or.inl h
        · exact Or.inr (List.mem_cons_of_mem q h)

theorem alookup_aInsert_self {α β : Type} [DecidableEq α] (k : α) (v : β) (m : List (α × β)) :
    alookup (aInsert k v m) k = some v := by
  induction m with
  | nil => simp [aInsert, alookup]
  | cons q rest ih =>
    rw [show aInsert k v (q :: rest)
        = if q.1 = k then (k, v) :: rest else q :: aInsert k v rest from rfl]
    by_cases hq : q.1 = k
    · simp [hq, alookup]
    · rw [if_neg hq]
      show (if q.1 = k then some q.2 else alookup (aInsert k v rest) k) = some v
      rw [if_neg hq, ih]

theorem alookup_aInsert_ne {α β : Type} [DecidableEq α] (k a : α) (v : β) (m : List (α × β))
    (h : a ≠ k) : alookup (aInsert k v m) a = alookup m a := by
  have hka : ¬(k = a) := fun he => h he.symm
  induction m with
  | nil => simp [aInsert, alookup, hka]
  | cons q rest ih =>
    rw [show aInsert k v (q :: rest)
        = if q.1 = k then (k, v) :: rest else q :: aInsert k v rest from rfl]
    by_cases hq : q.1 = k
    · rw [if_pos hq]
      show (if k = a then some v else alookup rest a)
        = if q.1 = a then some q.2 else alookup rest a
      rw [if_neg hka, if_neg (by rw [hq]; exact hka)]
    · rw [if_neg hq]
      show (if q.1 = a then some q.2 else alookup (aInsert k v rest) a)
        = if q.1 = a then some q.2 else alookup rest a
      by_cases ha : q.1 = a
      · rw [if_pos ha, if_pos ha]
      · rw [if_neg ha, if_neg ha, ih]

/-- Insertion sort; with an antisymmetric total `le` on distinct keys it
computes the same list as Python `sorted`. -/
def insertSorted {α : Type} (le : α → α → Bool) (x : α) : List α → List α
  | [] => [x]
  | y :: ys => if le x y then x :: y :: ys else y :: insertSorted le x ys

def sortBy {α : Type} (le : α → α → Bool) : List α → List α
  | [] => []
  | x :: xs => insertSorted le x (sortBy le xs)

theorem mem_insertSorted {α : Type} (le : α → α → Bool) (x y : α) :
    ∀ (l : List α), y ∈ insertSorted le x l ↔ y = x ∨ y ∈ l := by
  intro l
  induction l with
  | nil => simp [insertSorted]
  | cons z zs ih =>
    rw [show insertSorted le x (z :: zs)
        = if le x z then x :: z :: zs else z :: insertSorted le x zs from rfl]
    by_cases h : le x z
    · rw [if_pos h]
      simp only [List.mem_cons]
    · rw [if_neg h]
      simp only [List.mem_cons, ih]
      tauto

theorem mem_sortBy {α : Type} (le : α → α → Bool) (y : α) :
    ∀ (l : List α), y ∈ sortBy le l ↔ y ∈ l := by
  intro l
  induction l with
  | nil => simp [sortBy]
  | cons z zs ih =>
    unfold sortBy
    rw [mem_insertSorted, ih, List.mem_cons]

/-- `≤` on ints as a Bool, for Python `sorted` of index lists. -/
def intLe (a b : Int) : Bool := a ≤ b

/-- Lexicographic `≤` on char lists (Python string comparison, by code
point), for Python `sorted` over dict keys. -/
def charsLe : List Char → List Char → Bool
  | [], _ => true
  | _ :: _, [] => false
  | c :: cs, d :: ds => if c = d then charsLe cs ds else decide (c < d)

def strLe (a b : String) : Bool := charsLe a.data b.data

/-! ### Exact-rational model of Python floats

A Python float value is modelled as `num / den` with no normalisation; all
arithmetic used by the generator (comparison against powers of ten, division
by a power of ten, `%g` rounding) is exact on this form.  Binary-float
rounding error is not modelled: for every value the tool actually formats
(short decimals entered in the UI and reciprocals `1/n` for small `n`) the
`%g` output of the exact rational and of the IEEE double agree.
-/

structure QNum where
  num : Int
  den : Nat
deriving DecidableEq

/-- Embed an integer literal. -/
def qInt (i : Int) : QNum := ⟨i, 1⟩

/-- `|q| ≥ 10^k` (with `k` a possibly negative power), exact. -/
def qAbsGePow10 (q : QNum) (k : Int) : Bool :=
  q.num.natAbs * 10 ^ ((-k).toNat) ≥ q.den * 10 ^ k.toNat

/-- `q / 10^k`, exact. -/
def qDivPow10 (q : QNum) (k : Int) : QNum :=
  if k ≥ 0 then ⟨q.num, q.den * 10 ^ k.toNat⟩ else ⟨q.num * 10 ^ ((-k).toNat), q.den⟩

/-- `1 / n` (the PRT weight `1.0 / n_graded`). -/
def qReciprocal (n : Nat) : QNum := ⟨1, n⟩

/-- Round `num/den` to the nearest integer, ties to even (IEEE default, used
by the decimal conversion underlying `%g`). -/
def roundHalfEven (num den : Nat) : Nat :=
  let q := num / den
  let r := num % den
  if 2 * r < den then q
  else if 2 * r > den then q + 1
  else if q % 2 = 0 then q else q + 1

/-- Decimal exponent `X` with `10^X ≤ a/d < 10^(X+1)` for `a, d ≥ 1`. -/
def qExp10 (a d : Nat) : Int :=
  let cand : Int := ((natDigitsRev a).length : Int) - ((natDigitsRev d).length : Int)
  if a * 10 ^ ((-cand).toNat) ≥ d * 10 ^ cand.toNat then cand else cand - 1

/-- Round `a/d` to `pr` significant digits: returns the mantissa
`m ∈ [10^(pr-1), 10^pr)` and the decimal exponent. -/
def sigRound (pr : Nat) (a d : Nat) : Nat × Int :=
  let X := qExp10 a d
  let shift : Int := (pr : Int) - 1 - X
  let m :=
    if shift ≥ 0 then roundHalfEven (a * 10 ^ shift.toNat) d
    else roundHalfEven a (d * 10 ^ ((-shift).toNat))
  if m ≥ 10 ^ pr then (10 ^ (pr - 1), X + 1) else (m, X)

/-- Drop trailing zero digits. -/
def stripZeros (ds : List Nat) : List Nat := ((ds.reverse).dropWhile (fun d => d = 0)).reverse

def digitsStr (ds : List Nat) : String := String.mk (ds.map digitChar)

/-- Two-digit-minimum exponent form used by `%g` (`e+07`, `e-05`). -/
def gExpStr (X : Int) : String :=
  (if X < 0 then "e-" else "e+")
    ++ (if X.natAbs < 10 then "0" ++ natRepr X.natAbs else natRepr X.natAbs)

/-- Render a rounded mantissa/exponent pair the way `%.{pr}g` does. -/
def gRender (pr : Nat) (m : Nat) (X : Int) : String :=
  let ds := (natDigitsRev m).reverse
  if -4 ≤ X ∧ X < (pr : Int) then
    if X ≥ 0 then
      let ip := ds.take (X.toNat + 1)
      let fp := stripZeros (ds.drop (X.toNat + 1))
      digitsStr ip ++ (if fp = [] then "" else "." ++ digitsStr fp)
    else
      "0." ++ String.mk (List.replicate ((-X).toNat - 1) '0') ++ digitsStr (stripZeros ds)
  else
    let sig := stripZeros ds
    digitsStr (sig.take 1)
      ++ (if sig.length ≤ 1 then "" else "." ++ digitsStr (sig.drop 1))
      ++ gExpStr X

/-- Python `f'{v:.{pr}g}'` on the exact-rational float model. -/
def pyGFormat (pr : Nat) (q : QNum) : String :=
  if q.num = 0 then "0"
  else
    let md := sigRound pr q.num.natAbs q.den
    (if q.num < 0 then "-" else "") ++ gRender pr md.1 md.2

/-- `_fmt` of the source: `f'{v:g}'` — `%g` with default precision 6. -/
def _fmt (q : QNum) : String := pyGFormat 6 q

/-! ### Union-find (`_build_node_connectivity`, lines 240-265)

The Python `parent` dict is the association list `Parent`.  `find` is the
source's chase-to-root loop; path compression only rewrites existing
entries to ancestors and never changes any root, so the pure fuelled chase
computes the same root (the fuel `|p| + 1` always suffices: each effective
union adds exactly one entry whose key was a root, so chains are shorter
than the list; `UFOk` below proves this).  The `find(c)` calls made while
registering post coordinates mutate nothing in the dict model (they only
compress), so they are omitted.
-/

abbrev Coord := Int × Int
abbrev Parent := List (Coord × Coord)

def findAux : Nat → Parent → Coord → Coord
  | 0, _, c => c
  | fuel + 1, p, c =>
    match alookup p c with
    | none => c
    | some d => if d = c then c else findAux fuel p d

/-- `find(x)` of the source (root chase; see the section comment). -/
def ufFind (p : Parent) (c : Coord) : Coord := findAux (p.length + 1) p c

/-- `union(a, b)` of the source: `parent[find(a)] = find(b)` when the roots
differ. -/
def ufUnion (p : Parent) (a b : Coord) : Parent :=
  let ra := ufFind p a
  let rb := ufFind p b
  if ra = rb then p else (ra, rb) :: p

/-- The parent dict after processing a list of wire endpoint pairs. -/
def buildParent (ws : List (Coord × Coord)) : Parent :=
  ws.foldl (fun p ab => ufUnion p ab.1 ab.2) []

/-- `c` reaches root `r` in `n` parent-chasing steps. -/
inductive ReachesN (p : Parent) : Nat → Coord → Coord → Prop
  | root (c : Coord) : alookup p c = none → ReachesN p 0 c c
  | step (c d r : Coord) (n : Nat) : alookup p c = some d → d ≠ c →
      ReachesN p n d r → ReachesN p (n + 1) c r

/-- Structural invariant of every parent dict the source builds: every
coordinate reaches a root in at most `|p|` steps. -/
def UFOk (p : Parent) : Prop :=
  ∀ c, ∃ n r, n ≤ p.length ∧ ReachesN p n c r ∧ alookup p r = none

theorem reaches_findAux {p : Parent} {n : Nat} {c r : Coord}
    (h : ReachesN p n c r) : ∀ fuel, n < fuel → findAux fuel p c = r := by
  induction h with
  | root c hc =>
    intro fuel hf
    match fuel, hf with
    | f + 1, _ => simp [findAux, hc]
  | step c d r n hcd hdc hrest ih =>
    intro fuel hf
    match fuel, hf with
    | f + 1, hf =>
      have : n < f := by omega
      simp [findAux, hcd, hdc, ih f this]

theorem reaches_unique {p : Parent} {n m : Nat} {c r r' : Coord}
    (h : ReachesN p n c r) (h' : ReachesN p m c r') : r = r' := by
  induction h generalizing m with
  | root c hc =>
    cases h' with
    | root => rfl
    | step c' d' r₂ n₂ hcd => rw [hc] at hcd; exact absurd hcd (by simp)
  | step c d r n hcd hdc hrest ih =>
    cases h' with
    | root _ hc => rw [hc] at hcd; exact absurd hcd (by simp)
    | step c' d' r₂ n₂ hcd' hdc' hrest' =>
      rw [hcd] at hcd'
      injection hcd' with hd
      subst hd
      exact ih hrest'

theorem ufFind_eq {p : Parent} (h : UFOk p) (c : Coord) :
    ∃ n, n ≤ p.length ∧ ReachesN p n c (ufFind p c) ∧ alookup p (ufFind p c) = none := by
  obtain ⟨n, r, hn, hr, hroot⟩ := h c
  have : ufFind p c = r := reaches_findAux hr (p.length + 1) (by omega)
  rw [this]
  exact ⟨n, hn, hr, hroot⟩

theorem ufFind_root {p : Parent} (h : UFOk p) (c : Coord) :
    alookup p (ufFind p c) = none :=
  (ufFind_eq h c).choose_spec.2.2

theorem alookup_cons (k v : Coord) (p : Parent) (x : Coord) :
    alookup ((k, v) :: p) x = if k = x then some v else alookup p x := rfl

/-- Chains of `p` lift to `(ra, rb) :: p`: unchanged when they end at a root
other than `ra`, extended one step to `rb` when they end at `ra`. -/
theorem reaches_lift {p : Parent} {ra rb : Coord}
    (hra : alookup p ra = none) (hrb : alookup p rb = none) (hne : rb ≠ ra) :
    ∀ {n c r}, ReachesN p n c r →
      (r ≠ ra → ReachesN ((ra, rb) :: p) n c r)
        ∧ (r = ra → ReachesN ((ra, rb) :: p) (n + 1) c rb) := by
  intro n c r h
  induction h with
  | root c hc =>
    constructor
    · intro hcra
      exact ReachesN.root c (by rw [alookup_cons, if_neg (fun he => hcra he.symm)]; exact hc)
    · intro hcra
      subst hcra
      refine ReachesN.step c rb rb 0 ?_ hne ?_
      · rw [alookup_cons, if_pos rfl]
      · exact ReachesN.root rb (by rw [alookup_cons, if_neg (fun he => hne he.symm)]; exact hrb)
  | step c d r n hcd hdc hrest ih =>
    have hcne : ra ≠ c := by
      intro he
      rw [← he] at hcd
      rw [hra] at hcd
      exact absurd hcd (by simp)
    have hcd' : alookup ((ra, rb) :: p) c = some d := by
      rw [alookup_cons, if_neg hcne]; exact hcd
    constructor
    · intro hrra
      exact ReachesN.step c d r n hcd' hdc (ih.1 hrra)
    · intro hrra
      exact ReachesN.step c d rb (n + 1) hcd' hdc (ih.2 hrra)

theorem UFOk_union {p : Parent} (h : UFOk p) (a b : Coord) :
    UFOk (ufUnion p a b) := by
  unfold ufUnion
  by_cases hab : ufFind p a = ufFind p b
  · simpa [hab] using h
  · rw [if_neg hab]
    intro c
    have hra := ufFind_root h a
    have hrb := ufFind_root h b
    have hne : ufFind p b ≠ ufFind p a := fun he => hab he.symm
    obtain ⟨n, r, hn, hr, hroot⟩ := h c
    by_cases hrr : r = ufFind p a
    · refine ⟨n + 1, ufFind p b, by simp; omega, (reaches_lift hra hrb hne hr).2 hrr, ?_⟩
      rw [alookup_cons, if_neg (fun he => hne he.symm)]
      exact hrb
    · refine ⟨n, r, by simp; omega, (reaches_lift hra hrb hne hr).1 hrr, ?_⟩
      rw [alookup_cons, if_neg (fun he => hrr he.symm)]
      exact hroot

theorem ufFind_union {p : Parent} (h : UFOk p) (a b : Coord)
    (hab : ufFind p a ≠ ufFind p b) (c : Coord) :
    ufFind (ufUnion p a b) c
      = if ufFind p c = ufFind p a then ufFind p b else ufFind p c := by
  have hra := ufFind_root h a
  have hrb := ufFind_root h b
  have hne : ufFind p b ≠ ufFind p a := fun he => hab he.symm
  obtain ⟨n, hn, hr, hroot⟩ := ufFind_eq h c
  have hU : ufUnion p a b = (ufFind p a, ufFind p b) :: p := by
    simp only [ufUnion]
    rw [if_neg hab]
  rw [hU]
  by_cases hrr : ufFind p c = ufFind p a
  · rw [if_pos hrr]
    exact reaches_findAux ((reaches_lift hra hrb hne hr).2 hrr)
      ((((ufFind p a, ufFind p b) :: p).length) + 1) (by simp; omega)
  · rw [if_neg hrr]
    exact reaches_findAux ((reaches_lift hra hrb hne hr).1 hrr)
      ((((ufFind p a, ufFind p b) :: p).length) + 1) (by simp; omega)

/-- The relation generated by a list of wire endpoint pairs. -/
def wireRel (ws : List (Coord × Coord)) (a b : Coord) : Prop := (a, b) ∈ ws

theorem buildParent_append (ws : List (Coord × Coord)) (ab : Coord × Coord) :
    buildParent (ws ++ [ab]) = ufUnion (buildParent ws) ab.1 ab.2 := by
  simp [buildParent, List.foldl_append]

theorem eqvGen_nil {a b : Coord} (h : Relation.EqvGen (wireRel []) a b) : a = b := by
  induction h with
  | rel x y hxy => exact absurd hxy (by simp [wireRel])
  | refl x => rfl
  | symm x y _ ih => exact ih.symm
  | trans x y z _ _ ih₁ ih₂ => exact ih₁.trans ih₂

/-- Correctness of the Python union-find: after processing a wire list, two
coordinates have equal roots exactly when the wires connect them. -/
theorem buildParent_spec :
    ∀ ws : List (Coord × Coord), UFOk (buildParent ws) ∧
      (∀ a b, ufFind (buildParent ws) a = ufFind (buildParent ws) b
        ↔ Relation.EqvGen (wireRel ws) a b) := by
  intro ws
  induction ws using List.reverseRecOn with
  | nil =>
    constructor
    · intro c
      exact ⟨0, c, le_rfl, ReachesN.root c rfl, rfl⟩
    · intro a b
      constructor
      · intro h
        have : a = b := h
        exact this ▸ Relation.EqvGen.refl a
      · intro h
        exact congrArg (ufFind (buildParent [])) (eqvGen_nil h)
  | append_singleton ws ab ih =>
    obtain ⟨hok, hsame⟩ := ih
    have hrel_mono : ∀ x y, wireRel ws x y → wireRel (ws ++ [ab]) x y := by
      intro x y hxy
      simp only [wireRel, List.mem_append] at *
      exact Or.inl hxy
    have hab_mem : wireRel (ws ++ [ab]) ab.1 ab.2 := by
      simp [wireRel]
    rw [buildParent_append]
    by_cases hab : ufFind (buildParent ws) ab.1 = ufFind (buildParent ws) ab.2
    · have hpp : ufUnion (buildParent ws) ab.1 ab.2 = buildParent ws := by
        unfold ufUnion; rw [if_pos hab]
      rw [hpp]
      refine ⟨hok, fun a b => ⟨?_, ?_⟩⟩
      · intro h
        exact Relation.EqvGen.mono hrel_mono ((hsame a b).mp h)
      · intro h
        induction h with
        | rel x y hxy =>
          simp only [wireRel, List.mem_append, List.mem_singleton] at hxy
          rcases hxy with hxy | hxy
          · exact (hsame x y).mpr (Relation.EqvGen.rel x y hxy)
          · rw [show x = ab.1 from congrArg Prod.fst hxy,
                show y = ab.2 from congrArg Prod.snd hxy]
            exact hab
        | refl x => rfl
        | symm x y _ ihh => exact ihh.symm
        | trans x y z _ _ ih₁ ih₂ => exact ih₁.trans ih₂
    · refine ⟨UFOk_union hok ab.1 ab.2, fun a b => ?_⟩
      have hfu := ufFind_union hok ab.1 ab.2 hab
      rw [hfu a, hfu b]
      constructor
      · intro h
        by_cases hxa : ufFind (buildParent ws) a = ufFind (buildParent ws) ab.1
          <;> by_cases hyb : ufFind (buildParent ws) b = ufFind (buildParent ws) ab.1
        · exact Relation.EqvGen.mono hrel_mono
            ((hsame a b).mp (hxa.trans hyb.symm))
        · rw [if_pos hxa, if_neg hyb] at h
          have h1 : Relation.EqvGen (wireRel ws) a ab.1 := (hsame a ab.1).mp hxa
          have h2 : Relation.EqvGen (wireRel ws) b ab.2 := (hsame b ab.2).mp h.symm
          exact Relation.EqvGen.trans a ab.2 b
            (Relation.EqvGen.trans a ab.1 ab.2
              (Relation.EqvGen.mono hrel_mono h1)
              (Relation.EqvGen.rel ab.1 ab.2 hab_mem))
            (Relation.EqvGen.symm b ab.2 (Relation.EqvGen.mono hrel_mono h2))
        · rw [if_neg hxa, if_pos hyb] at h
          have h1 : Relation.EqvGen (wireRel ws) b ab.1 := (hsame b ab.1).mp hyb
          have h2 : Relation.EqvGen (wireRel ws) a ab.2 := (hsame a ab.2).mp h
          exact Relation.EqvGen.trans a ab.2 b
            (Relation.EqvGen.mono hrel_mono h2)
            (Relation.EqvGen.symm b ab.2
              (Relation.EqvGen.trans b ab.1 ab.2
                (Relation.EqvGen.mono hrel_mono h1)
                (Relation.EqvGen.rel ab.1 ab.2 hab_mem)))
        · rw [if_neg hxa, if_neg hyb] at h
          exact Relation.EqvGen.mono hrel_mono ((hsame a b).mp h)
      · intro h
        induction h with
        | rel x y hxy =>
          simp only [wireRel, List.mem_append, List.mem_singleton] at hxy
          rcases hxy with hxy | hxy
          · have := (hsame x y).mpr (Relation.EqvGen.rel x y hxy)
            rw [this]
          · rw [show x = ab.1 from congrArg Prod.fst hxy,
                show y = ab.2 from congrArg Prod.snd hxy]
            rw [if_pos rfl, if_neg (fun he => hab he.symm)]
        | refl x => rfl
        | symm x y _ ihh => exact ihh.symm
        | trans x y z _ _ ih₁ ih₂ => exact ih₁.trans ih₂

/-! ### Netlist parsing and node resolution (`_build_node_connectivity`) -/

/-- Meta-only line tags (source `_EXPORT_META_ONLY`); wire lines are kept to
stay index-aligned with the API element list. -/
def _EXPORT_META_ONLY : List (List Char) := [['$'], ['o'], ['3', '8'], ['h'], ['&']]

/-- `_get_element_lines`: stripped non-empty lines whose first token is not
meta-only (wires included). -/
def _get_element_lines (export_text : String) : List (List Char) :=
  ((splitLines export_text.data).map pyStrip).filter
    (fun line => decide (line ≠ []) && decide (firstToken line ∉ _EXPORT_META_ONLY))

/-- The wire records of the export (lines 257-265 of the source): stripped
lines whose whitespace-split starts with `w` and has at least five fields
with integer coordinates; a `ValueError` on any coordinate skips the whole
union. -/
def wirePairs (export_text : String) : List (Coord × Coord) :=
  (splitLines export_text.data).filterMap (fun raw =>
    let parts := pySplitWs (pyStrip raw)
    if decide (parts ≠ []) && decide (parts.headD [] = ['w']) && decide (parts.length ≥ 5) then
      match pyInt? (parts.getD 1 []), pyInt? (parts.getD 2 []),
          pyInt? (parts.getD 3 []), pyInt? (parts.getD 4 []) with
      | some x1, some y1, some x2, some y2 => some ((x1, y1), (x2, y2))
      | _, _, _, _ => none
    else none)

/-- The union-find parent dict after merging all wire endpoints. -/
def ufParentOf (export_text : String) : Parent := buildParent (wirePairs export_text)

/-- One entry of the API element-metadata list (a Python dict with keys
`index`, `type`, `label`, `posts`; the dict-with-default accesses
`elem.get('type','')` etc. are total fields here). -/
structure ElementInfo where
  index : Int
  etype : String
  label : String
  posts : Nat
deriving DecidableEq

/-- Post coordinates of one element line (source lines 272-283): for each
post slot, parse `fields[1+2p], fields[2+2p]`; a `ValueError` skips that
pair. -/
def postCoords (fields : List (List Char)) (posts : Nat) : List Coord :=
  (List.range posts).filterMap (fun p =>
    let y_idx := 2 + 2 * p
    if y_idx < fields.length then
      match pyInt? (fields.getD (1 + 2 * p) []), pyInt? (fields.getD y_idx []) with
      | some x, some y => some (x, y)
      | _, _ => none
    else none)

/-- `element_posts` (source lines 267-285): enumerate the element list,
skipping indices beyond the filtered line list. -/
def elementPosts (export_text : String) (elements : List ElementInfo) :
    List (Nat × List Coord) :=
  let elem_lines := _get_element_lines export_text
  elements.enum.filterMap (fun ie =>
    if ie.1 < elem_lines.length then
      some (ie.1, postCoords (pySplitWs (elem_lines.getD ie.1 [])) ie.2.posts)
    else none)

/-- `all_coords` (source lines 288-290): the set of registered post
coordinates, as a duplicate-free list. -/
def allCoords (export_text : String) (elements : List ElementInfo) : List Coord :=
  ((elementPosts export_text elements).map Prod.snd).flatten.foldl
    (fun s c => sInsert c s) []

/-- `groups.setdefault(root, set()).add(c)`. -/
def addToGroup (gs : List (Coord × List Coord)) (root c : Coord) :
    List (Coord × List Coord) :=
  match alookup gs root with
  | none => gs ++ [(root, [c])]
  | some s => aInsert root (sInsert c s) gs

/-- `groups` (source lines 291-294): registered coordinates grouped by
union-find root. -/
def groupsOf (export_text : String) (elements : List ElementInfo) :
    List (Coord × List Coord) :=
  let parent := ufParentOf export_text
  (allCoords export_text elements).foldl
    (fun gs c => addToGroup gs (ufFind parent c) c) []

/-- `sorted(groups.keys(), key=lambda c: (c[1], c[0]))`. -/
def coordLeYX (a b : Coord) : Bool :=
  if a.2 = b.2 then decide (a.1 ≤ b.1) else decide (a.2 < b.2)

def sortedRootsOf (export_text : String) (elements : List ElementInfo) : List Coord :=
  sortBy coordLeYX ((groupsOf export_text elements).map Prod.fst)

/-- `node_map` (source lines 297-300): sequential ids from 1 in sorted root
order. -/
def nodeMapOf (export_text : String) (elements : List ElementInfo) :
    List (Coord × Nat) :=
  (sortedRootsOf export_text elements).enum.map (fun nr => (nr.2, nr.1 + 1))

/-- One `node_list` entry: `{'labels': [...], 'elements': [...]}`. -/
structure NodeInfo where
  labels : List String
  elements : List String
deriving DecidableEq

/-- `node_list` initialisation (source line 303). -/
def nodeListInit (export_text : String) (elements : List ElementInfo) :
    List (Nat × NodeInfo) :=
  (nodeMapOf export_text elements).map (fun rn => (rn.2, ⟨[], []⟩))

/-- The per-element loop of source lines 306-316: accumulate `node_list`
adjacent-element labels and `element_nodes`. -/
def buildNodeEntries (export_text : String) (elements : List ElementInfo)
    (index_to_label : List (Int × String)) :
    List (Nat × NodeInfo) × List (Nat × List Nat) :=
  let parent := ufParentOf export_text
  let node_map := nodeMapOf export_text elements
  (elementPosts export_text elements).foldl
    (fun st ic =>
      let idx := ic.1
      let inner := ic.2.foldl
        (fun st2 c =>
          match alookup node_map (ufFind parent c) with
          | none => st2
          | some n =>
            let nl :=
              match alookup index_to_label (idx : Int) with
              | none => st2.1
              | some label =>
                if label = "" then st2.1
                else
                  match alookup st2.1 n with
                  | none => st2.1
                  | some info =>
                    if label ∈ info.elements then st2.1
                    else aInsert n ⟨info.labels, info.elements ++ [label]⟩ st2.1
            (nl, st2.2 ++ [n]))
        (st.1, ([] : List Nat))
      (inner.1, st.2 ++ [(idx, inner.2)]))
    (nodeListInit export_text elements, ([] : List (Nat × List Nat)))

/-- The user-label loop of source lines 319-327.  (The `none` fallbacks for
`alookup node_list n` are unreachable: `node_map` values are exactly the
`node_list` keys.) -/
def attachNodeLabels (export_text : String) (elements : List ElementInfo)
    (node_list : List (Nat × NodeInfo)) : List (Nat × NodeInfo) :=
  let parent := ufParentOf export_text
  let node_map := nodeMapOf export_text elements
  let eposts := elementPosts export_text elements
  elements.enum.foldl
    (fun nl ie =>
      let lbl := ie.2.label
      if lbl = "" then nl
      else
        match alookup eposts ie.1 with
        | some (c :: _) =>
          match alookup node_map (ufFind parent c) with
          | some n =>
            match alookup nl n with
            | some info =>
              if lbl ∈ info.labels then nl
              else aInsert n ⟨info.labels ++ [lbl], info.elements⟩ nl
            | none => nl
          | none => nl
        | _ => nl)
    node_list

/-- `_build_node_connectivity`: returns `(node_list, element_nodes)`. -/
def _build_node_connectivity (export_text : String) (elements : List ElementInfo)
    (index_to_label : List (Int × String)) :
    List (Nat × NodeInfo) × List (Nat × List Nat) :=
  let st := buildNodeEntries export_text elements index_to_label
  (attachNodeLabels export_text elements st.1, st.2)

/-! ### Association-list facts used by the grouping proofs -/

theorem alookup_eq_none_iff {α β : Type} [DecidableEq α] (m : List (α × β)) (k : α) :
    alookup m k = none ↔ k ∉ m.map Prod.fst := by
  induction m with
  | nil => simp [alookup]
  | cons q rest ih =>
    show (if q.1 = k then some q.2 else alookup rest k) = none ↔ _
    by_cases hq : q.1 = k
    · simp [hq]
    · simp only [hq, if_false, ih, List.map_cons, List.mem_cons]
      constructor
      · intro h hk
        rcases hk with hk | hk
        · exact hq hk.symm
        · exact h hk
      · intro h hk
        exact h (Or.inr hk)

theorem alookup_some_mem {α β : Type} [DecidableEq α] {m : List (α × β)} {k : α} {v : β}
    (h : alookup m k = some v) : (k, v) ∈ m := by
  induction m with
  | nil => exact absurd h (by simp [alookup])
  | cons q rest ih =>
    rw [show alookup (q :: rest) k = if q.1 = k then some q.2 else alookup rest k from rfl] at h
    by_cases hq : q.1 = k
    · rw [if_pos hq] at h
      injection h with hv
      subst hv
      subst hq
      exact List.mem_cons_self _ _
    · rw [if_neg hq] at h
      exact List.mem_cons_of_mem q (ih h)

theorem mem_aInsert_self {α β : Type} [DecidableEq α] (k : α) (v : β) (m : List (α × β)) :
    (k, v) ∈ aInsert k v m := by
  induction m with
  | nil => simp [aInsert]
  | cons q rest ih =>
    rw [show aInsert k v (q :: rest)
        = if q.1 = k then (k, v) :: rest else q :: aInsert k v rest from rfl]
    by_cases hq : q.1 = k
    · rw [if_pos hq]; exact List.mem_cons_self _ _
    · rw [if_neg hq]; exact List.mem_cons_of_mem q ih

theorem mem_aInsert_of_ne {α β : Type} [DecidableEq α] {k' : α} {v' : β} {m : List (α × β)}
    (k : α) (v : β) (hm : (k', v') ∈ m) (hne : k' ≠ k) : (k', v') ∈ aInsert k v m := by
  induction m with
  | nil => simp at hm
  | cons q rest ih =>
    rw [show aInsert k v (q :: rest)
        = if q.1 = k then (k, v) :: rest else q :: aInsert k v rest from rfl]
    rcases List.mem_cons.mp hm with rfl | hm'
    · have hq : ¬(k', v').1 = k := hne
      rw [if_neg hq]
      exact List.mem_cons_self _ _
    · by_cases hq : q.1 = k
      · rw [if_pos hq]
        exact List.mem_cons_of_mem _ hm'
      · rw [if_neg hq]
        exact List.mem_cons_of_mem q (ih hm')

theorem keys_aInsert {α β : Type} [DecidableEq α] (k : α) (v : β) (m : List (α × β)) :
    (aInsert k v m).map Prod.fst
      = if k ∈ m.map Prod.fst then m.map Prod.fst else m.map Prod.fst ++ [k] := by
  induction m with
  | nil => simp [aInsert]
  | cons q rest ih =>
    rw [show aInsert k v (q :: rest)
        = if q.1 = k then (k, v) :: rest else q :: aInsert k v rest from rfl]
    by_cases hq : q.1 = k
    · rw [if_pos hq]
      simp [hq.symm]
    · rw [if_neg hq]
      have hne : ¬(k = q.1) := fun h => hq h.symm
      simp only [List.map_cons, List.mem_cons, hne, false_or]
      by_cases hk : k ∈ rest.map Prod.fst
      · simp [hk, ih]
      · simp [hk, ih]

theorem alookup_of_mem_nodup {α β : Type} [DecidableEq α] {m : List (α × β)} {k : α} {v : β}
    (hnd : (m.map Prod.fst).Nodup) (hm : (k, v) ∈ m) : alookup m k = some v := by
  induction m with
  | nil => simp at hm
  | cons q rest ih =>
    rw [List.map_cons, List.nodup_cons] at hnd
    show (if q.1 = k then some q.2 else alookup rest k) = some v
    rcases List.mem_cons.mp hm with rfl | hm'
    · rw [if_pos rfl]
    · by_cases hq : q.1 = k
      · exfalso
        apply hnd.1
        rw [hq]
        exact List.mem_map.mpr ⟨(k, v), hm', rfl⟩
      · rw [if_neg hq]
        exact ih hnd.2 hm'

/-! ### The grouping invariant (source lines 288-300) -/

/-- Invariant of the `groups` fold: entries hold exactly the processed
coordinates, grouped by root, with distinct root keys. -/
def GInv (parent : Parent) (gs : List (Coord × List Coord)) (done : List Coord) : Prop :=
  (∀ rg ∈ gs, ∀ c ∈ rg.2, ufFind parent c = rg.1 ∧ c ∈ done)
    ∧ (∀ c ∈ done, ∃ g, (ufFind parent c, g) ∈ gs ∧ c ∈ g)
    ∧ (gs.map Prod.fst).Nodup

theorem GInv_step (parent : Parent) (gs : List (Coord × List Coord)) (done : List Coord)
    (c : Coord) (h : GInv parent gs done) :
    GInv parent (addToGroup gs (ufFind parent c) c) (done ++ [c]) := by
  obtain ⟨h1, h2, h3⟩ := h
  unfold addToGroup
  match hlk : alookup gs (ufFind parent c) with
  | none =>
    refine ⟨?_, ?_, ?_⟩
    · intro rg hrg c' hc'
      rcases List.mem_append.mp hrg with hrg | hrg
      · obtain ⟨he, hd⟩ := h1 rg hrg c' hc'
        exact ⟨he, List.mem_append.mpr (Or.inl hd)⟩
      · rw [List.mem_singleton.mp hrg] at hc' ⊢
        rw [List.mem_singleton.mp hc']
        exact ⟨rfl, List.mem_append.mpr (Or.inr (List.mem_singleton.mpr rfl))⟩
    · intro c' hc'
      rcases List.mem_append.mp hc' with hc' | hc'
      · obtain ⟨g, hg, hcg⟩ := h2 c' hc'
        exact ⟨g, List.mem_append.mpr (Or.inl hg), hcg⟩
      · rw [List.mem_singleton.mp hc']
        exact ⟨[c], List.mem_append.mpr (Or.inr (List.mem_singleton.mpr rfl)),
          List.mem_singleton.mpr rfl⟩
    · rw [List.map_append]
      simp only [List.map_cons, List.map_nil]
      rw [List.nodup_append]
      refine ⟨h3, List.nodup_singleton _, ?_⟩
      intro x hx
      simp only [List.mem_singleton]
      intro hxc
      rw [hxc] at hx
      exact (alookup_eq_none_iff gs (ufFind parent c)).mp hlk hx
  | some s =>
    have hmem : (ufFind parent c, s) ∈ gs := alookup_some_mem hlk
    refine ⟨?_, ?_, ?_⟩
    · intro rg hrg c' hc'
      rcases mem_aInsert hrg with rfl | hrg'
      · rcases mem_sInsert.mp hc' with hc' | rfl
        · obtain ⟨he, hd⟩ := h1 _ hmem c' hc'
          exact ⟨he, List.mem_append.mpr (Or.inl hd)⟩
        · exact ⟨rfl, List.mem_append.mpr (Or.inr (List.mem_singleton.mpr rfl))⟩
      · obtain ⟨he, hd⟩ := h1 rg hrg' c' hc'
        exact ⟨he, List.mem_append.mpr (Or.inl hd)⟩
    · intro c' hc'
      rcases List.mem_append.mp hc' with hc' | hc'
      · obtain ⟨g, hg, hcg⟩ := h2 c' hc'
        by_cases hr : ufFind parent c' = ufFind parent c
        · have hgs : g = s := by
            have := alookup_of_mem_nodup h3 (hr ▸ hg)
            rw [hlk] at this
            injection this.symm
          refine ⟨sInsert c s, ?_, ?_⟩
          · rw [hr]
            exact mem_aInsert_self _ _ _
          · exact subset_sInsert c s (hgs ▸ hcg)
        · exact ⟨g, mem_aInsert_of_ne _ _ hg hr, hcg⟩
      · rw [List.mem_singleton.mp hc']
        exact ⟨sInsert c s, mem_aInsert_self _ _ _, mem_sInsert_self c s⟩
    · rw [keys_aInsert]
      have : ufFind parent c ∈ gs.map Prod.fst :=
        List.mem_map.mpr ⟨(ufFind parent c, s), hmem, rfl⟩
      rw [if_pos this]
      exact h3

theorem GInv_fold (parent : Parent) :
    ∀ (cs : List Coord) (gs₀ : List (Coord × List Coord)) (done₀ : List Coord),
      GInv parent gs₀ done₀ →
      GInv parent (cs.foldl (fun gs c => addToGroup gs (ufFind parent c) c) gs₀)
        (done₀ ++ cs) := by
  intro cs
  induction cs with
  | nil => intro gs₀ done₀ h; simpa using h
  | cons c rest ih =>
    intro gs₀ done₀ h
    have h' := GInv_step parent gs₀ done₀ c h
    have := ih _ _ h'
    simpa using this

theorem GInv_groupsOf (export_text : String) (elements : List ElementInfo) :
    GInv (ufParentOf export_text) (groupsOf export_text elements)
      (allCoords export_text elements) := by
  have h0 : GInv (ufParentOf export_text) [] [] := by
    refine ⟨?_, ?_, ?_⟩ <;> simp
  have := GInv_fold (ufParentOf export_text) (allCoords export_text elements) [] [] h0
  simpa [groupsOf] using this

/-! ### Coordinates never touched by a wire -/

/-- All endpooint coordinates mentioned by the wire records. -/
def wcsL (ws : List (Coord × Coord)) : List Coord :=
  ws.foldr (fun ab acc => ab.1 :: ab.2 :: acc) []

theorem mem_wcsL (ws : List (Coord × Coord)) (c : Coord) :
    c ∈ wcsL ws ↔ ∃ p ∈ ws, c = p.1 ∨ c = p.2 := by
  induction ws with
  | nil => simp [wcsL]
  | cons ab rest ih =>
    show c ∈ ab.1 :: ab.2 :: wcsL rest ↔ _
    constructor
    · intro h
      rcases List.mem_cons.mp h with rfl | h
      · exact ⟨ab, List.mem_cons_self _ _, Or.inl rfl⟩
      rcases List.mem_cons.mp h with rfl | h
      · exact ⟨ab, List.mem_cons_self _ _, Or.inr rfl⟩
      · obtain ⟨p, hp, hor⟩ := ih.mp h
        exact ⟨p, List.mem_cons_of_mem ab hp, hor⟩
    · rintro ⟨p, hp, hor⟩
      rcases List.mem_cons.mp hp with rfl | hp
      · rcases hor with rfl | rfl
        · exact List.mem_cons_self _ _
        · exact List.mem_cons_of_mem _ (List.mem_cons_self _ _)
      · exact List.mem_cons_of_mem _ (List.mem_cons_of_mem _ (ih.mpr ⟨p, hp, hor⟩))

theorem findAux_mem : ∀ (fuel : Nat) (p : Parent) (c : Coord),
    findAux fuel p c = c ∨ ∃ kv ∈ p, kv.2 = findAux fuel p c := by
  intro fuel
  induction fuel with
  | zero => intro p c; exact Or.inl rfl
  | succ f ih =>
    intro p c
    match hlk : alookup p c with
    | none =>
      have : findAux (f + 1) p c = c := by simp [findAux, hlk]
      exact Or.inl this
    | some d =>
      by_cases hdc : d = c
      · have : findAux (f + 1) p c = c := by simp [findAux, hlk, hdc]
        exact Or.inl this
      · have heq : findAux (f + 1) p c = findAux f p d := by simp [findAux, hlk, hdc]
        rw [heq]
        rcases ih p d with h | ⟨kv, hkv, hv⟩
        · exact Or.inr ⟨(c, d), alookup_some_mem hlk, h.symm⟩
        · exact Or.inr ⟨kv, hkv, hv⟩

theorem ufFind_mem (p : Parent) (c : Coord) :
    ufFind p c = c ∨ ∃ kv ∈ p, kv.2 = ufFind p c :=
  findAux_mem (p.length + 1) p c

theorem buildParent_components :
    ∀ ws : List (Coord × Coord), ∀ kv ∈ buildParent ws, kv.1 ∈ wcsL ws ∧ kv.2 ∈ wcsL ws := by
  intro ws
  induction ws using List.reverseRecOn with
  | nil => intro kv hkv; simp [buildParent] at hkv
  | append_singleton ws ab ih =>
    intro kv hkv
    rw [buildParent_append] at hkv
    have hsub : ∀ x, x ∈ wcsL ws → x ∈ wcsL (ws ++ [ab]) := by
      intro x hx
      rw [mem_wcsL] at hx ⊢
      obtain ⟨p, hp, hor⟩ := hx
      exact ⟨p, List.mem_append.mpr (Or.inl hp), hor⟩
    have hab1 : ab.1 ∈ wcsL (ws ++ [ab]) := by
      rw [mem_wcsL]
      exact ⟨ab, List.mem_append.mpr (Or.inr (List.mem_singleton.mpr rfl)), Or.inl rfl⟩
    have hab2 : ab.2 ∈ wcsL (ws ++ [ab]) := by
      rw [mem_wcsL]
      exact ⟨ab, List.mem_append.mpr (Or.inr (List.mem_singleton.mpr rfl)), Or.inr rfl⟩
    have hfind : ∀ x, x ∈ wcsL (ws ++ [ab]) →
        ufFind (buildParent ws) x ∈ wcsL (ws ++ [ab]) := by
      intro x hx
      rcases ufFind_mem (buildParent ws) x with h | ⟨kv', hkv', hv⟩
      · rw [h]; exact hx
      · rw [← hv]; exact hsub _ (ih kv' hkv').2
    unfold ufUnion at hkv
    by_cases hr : ufFind (buildParent ws) ab.1 = ufFind (buildParent ws) ab.2
    · rw [if_pos hr] at hkv
      obtain ⟨h1, h2⟩ := ih kv hkv
      exact ⟨hsub _ h1, hsub _ h2⟩
    · rw [if_neg hr] at hkv
      rcases List.mem_cons.mp hkv with rfl | hkv'
      · exact ⟨hfind ab.1 hab1, hfind ab.2 hab2⟩
      · obtain ⟨h1, h2⟩ := ih kv hkv'
        exact ⟨hsub _ h1, hsub _ h2⟩

theorem untouched_find {ws : List (Coord × Coord)} {c : Coord} (h : c ∉ wcsL ws) :
    ufFind (buildParent ws) c = c := by
  have hlk : alookup (buildParent ws) c = none := by
    rw [alookup_eq_none_iff]
    intro hk
    obtain ⟨kv, hkv, hfst⟩ := List.mem_map.mp hk
    exact h (hfst ▸ (buildParent_components ws kv hkv).1)
  show findAux ((buildParent ws).length + 1) (buildParent ws) c = c
  simp [findAux, hlk]

theorem untouched_target {ws : List (Coord × Coord)} {c : Coord} (h : c ∉ wcsL ws) :
    ∀ b, ufFind (buildParent ws) b = c → b = c := by
  intro b hb
  rcases ufFind_mem (buildParent ws) b with hh | ⟨kv, hkv, hv⟩
  · rw [← hb]; exact hh.symm
  · exfalso
    apply h
    rw [hb] at hv
    rw [← hv]
    exact (buildParent_components ws kv hkv).2

/-- All coordinates mentioned by the wire records of an export. -/
def wireCoords (export_text : String) : List Coord := wcsL (wirePairs export_text)

theorem nodup_keys_value_eq {α β : Type} [DecidableEq α] {m : List (α × β)} {k : α}
    {v₁ v₂ : β} (hnd : (m.map Prod.fst).Nodup) (h₁ : (k, v₁) ∈ m) (h₂ : (k, v₂) ∈ m) :
    v₁ = v₂ := by
  have e₁ := alookup_of_mem_nodup hnd h₁
  have e₂ := alookup_of_mem_nodup hnd h₂
  rw [e₁] at e₂
  injection e₂

/-! ### Claim C1 -/

/-- Concrete inputs for C1: the same circuit exported with its two wire
records in the two possible orders; the element metadata list is identical
(the two wire entries are equal records). -/
def wireOrderExportA : String := "w 0 0 10 10\nw 0 0 20 20\nr 0 0 15 15 0 100"

def wireOrderExportB : String := "w 0 0 20 20\nw 0 0 10 10\nr 0 0 15 15 0 100"

def wireOrderElems : List ElementInfo :=
  [⟨0, "WireElm", "", 2⟩, ⟨1, "WireElm", "", 2⟩, ⟨2, "ResistorElm", "", 2⟩]

/-- C1 (counterexample): the two exports hold the same wire records
(`wirePairs` are permutations of each other, element lines unchanged, same
element list), yet the resolver assigns different node identifiers: the
resistor's posts map to nodes `[2, 1]` in the first order and `[1, 2]` in
the second.  Sorting is by the `(y, x)` of each group's union-find root,
and the root of the merged group is `(20, 20)` in the first order but
`(10, 10)` in the second. -/
theorem C1_counterexample :
    (wirePairs wireOrderExportA).Perm (wirePairs wireOrderExportB)
      ∧ (_get_element_lines wireOrderExportA).filter (fun l => firstToken l ≠ ['w'])
          = (_get_element_lines wireOrderExportB).filter (fun l => firstToken l ≠ ['w'])
      ∧ (_build_node_connectivity wireOrderExportA wireOrderElems []).2
          = [(0, [2, 2]), (1, [2, 2]), (2, [2, 1])]
      ∧ (_build_node_connectivity wireOrderExportB wireOrderElems []).2
          = [(0, [1, 1]), (1, [1, 1]), (2, [1, 2])]
      ∧ (_build_node_connectivity wireOrderExportA wireOrderElems []).2
          ≠ (_build_node_connectivity wireOrderExportB wireOrderElems []).2 := by
  refine ⟨by decide, by decide, by decide, by decide, by decide⟩

/-- C1 (amended): permuting the wire records of an export (content
unchanged) always preserves the coordinate partition — two coordinates have
the same union-find root after the permutation iff they did before — but it
may change the sequential node identifiers, which are ordered by the
`(y, x)` of each group's union-find root (a root that depends on the order
the unions were performed), not by the lexicographically smallest group
member. -/
theorem C1_partition_order_independence (e e' : String)
    (h : (wirePairs e).Perm (wirePairs e')) (a b : Coord) :
    ufFind (ufParentOf e) a = ufFind (ufParentOf e) b
      ↔ ufFind (ufParentOf e') a = ufFind (ufParentOf e') b := by
  have hs := (buildParent_spec (wirePairs e)).2 a b
  have hs' := (buildParent_spec (wirePairs e')).2 a b
  unfold ufParentOf
  rw [hs, hs']
  constructor
  · intro hg
    refine Relation.EqvGen.mono ?_ hg
    intro x y hxy
    exact h.mem_iff.mp hxy
  · intro hg
    refine Relation.EqvGen.mono ?_ hg
    intro x y hxy
    exact h.mem_iff.mpr hxy

/-- C1 (witness): the amended theorem applied to the concrete wire-order
permutation above. -/
theorem C1_witness :
    (wirePairs wireOrderExportA).Perm (wirePairs wireOrderExportB)
      ∧ (ufFind (ufParentOf wireOrderExportA) (0, 0)
            = ufFind (ufParentOf wireOrderExportA) (20, 20)
          ↔ ufFind (ufParentOf wireOrderExportB) (0, 0)
            = ufFind (ufParentOf wireOrderExportB) (20, 20)) :=
  ⟨by decide,
    C1_partition_order_independence wireOrderExportA wireOrderExportB (by decide) (0, 0) (20, 20)⟩

/-! ### Claim C7 -/

/-- C7: the visible nodes are exactly the connectivity classes of
element-post coordinates.  (1) Every registered element-post coordinate
belongs to exactly one group, and that group's root carries a node
identifier.  (2) A registered post never touched by a wire forms a
singleton group.  (3) A coordinate that is not an element post (for
example one appearing only as a wire endpoint) is a member of no group, so
it never surfaces as (part of) a node. -/
theorem C7_visible_nodes (export_text : String) (elements : List ElementInfo) :
    (∀ c ∈ allCoords export_text elements,
      ∃ g, (g ∈ groupsOf export_text elements ∧ c ∈ g.2)
        ∧ (∀ g' ∈ groupsOf export_text elements, c ∈ g'.2 → g' = g)
        ∧ ∃ n, alookup (nodeMapOf export_text elements) g.1 = some n)
    ∧ (∀ c ∈ allCoords export_text elements, c ∉ wireCoords export_text →
      ∀ g ∈ groupsOf export_text elements, c ∈ g.2 → ∀ c' ∈ g.2, c' = c)
    ∧ (∀ c, c ∉ allCoords export_text elements →
      ∀ g ∈ groupsOf export_text elements, c ∉ g.2) := by
  obtain ⟨h1, h2, h3⟩ := GInv_groupsOf export_text elements
  refine ⟨?_, ?_, ?_⟩
  · intro c hc
    obtain ⟨g, hg, hcg⟩ := h2 c hc
    refine ⟨(ufFind (ufParentOf export_text) c, g), ⟨hg, hcg⟩, ?_, ?_⟩
    · intro g' hg' hcg'
      have hroot := (h1 g' hg' c hcg').1
      have hfst : g'.1 = ufFind (ufParentOf export_text) c := hroot.symm
      have hval : g'.2 = g := by
        apply nodup_keys_value_eq h3 ?_ hg
        rw [← hfst]
        exact hg'
      calc g' = (g'.1, g'.2) := rfl
        _ = (ufFind (ufParentOf export_text) c, g) := by rw [hfst, hval]
    · have hmemkey : ufFind (ufParentOf export_text) c
          ∈ (groupsOf export_text elements).map Prod.fst :=
        List.mem_map.mpr ⟨(ufFind (ufParentOf export_text) c, g), hg, rfl⟩
      have hsorted : ufFind (ufParentOf export_text) c ∈ sortedRootsOf export_text elements :=
        (mem_sortBy coordLeYX _ _).mpr hmemkey
      have hkeys : (nodeMapOf export_text elements).map Prod.fst
          = sortedRootsOf export_text elements := by
        unfold nodeMapOf
        rw [List.map_map]
        exact List.enum_map_snd _
      match hn : alookup (nodeMapOf export_text elements) (ufFind (ufParentOf export_text) c) with
      | some n => exact ⟨n, rfl⟩
      | none =>
        exfalso
        apply (alookup_eq_none_iff _ _).mp hn
        rw [hkeys]
        exact hsorted
  · intro c hc hw g hg hcg c' hc'
    have hrc : ufFind (ufParentOf export_text) c = c := untouched_find hw
    have hroot := (h1 g hg c hcg).1
    have hroot' := (h1 g hg c' hc').1
    apply untouched_target hw
    show ufFind (ufParentOf export_text) c' = c
    rw [hroot', ← hroot, hrc]
  · intro c hc g hg hcg
    exact hc (h1 g hg c hcg).2

/-- Concrete input for the C7 witness: one resistor, one dangling wire whose
far endpoint `(9, 9)` is not an element post (the wire itself is beyond the
element list, as when metadata is truncated), and an isolated post. -/
def c7Export : String := "r 0 0 5 0 0 100\nw 0 0 9 9"

def c7Elems : List ElementInfo := [⟨0, "ResistorElm", "", 2⟩]

/-- C7 (witness): the theorem applied at the concrete circuit above — the
post `(5, 0)` (untouched by wires) gets a unique singleton group with a
node id, and `(9, 9)` (wire endpoint only) is in no group. -/
theorem C7_witness :
    (∃ g, (g ∈ groupsOf c7Export c7Elems ∧ ((5 : Int), (0 : Int)) ∈ g.2)
        ∧ (∀ g' ∈ groupsOf c7Export c7Elems, ((5 : Int), (0 : Int)) ∈ g'.2 → g' = g)
        ∧ ∃ n, alookup (nodeMapOf c7Export c7Elems) g.1 = some n)
      ∧ (∀ g ∈ groupsOf c7Export c7Elems, ((5 : Int), (0 : Int)) ∈ g.2 →
          ∀ c' ∈ g.2, c' = ((5 : Int), (0 : Int)))
      ∧ (∀ g ∈ groupsOf c7Export c7Elems, ((9 : Int), (9 : Int)) ∉ g.2) :=
  ⟨(C7_visible_nodes c7Export c7Elems).1 (5, 0) (by decide),
    (C7_visible_nodes c7Export c7Elems).2.1 (5, 0) (by decide) (by decide),
    (C7_visible_nodes c7Export c7Elems).2.2 (9, 9) (by decide)⟩

/-! ### Label assignment (`_assign_element_labels`, source lines 161-214) -/

/-- Source table `ELEMENT_LABEL_PREFIX` (type tag → label prefix). -/
def ELEMENT_LABEL_PFX : List (String × String) :=
  [("ResistorElm", "R"), ("CapacitorElm", "C"), ("InductorElm", "L"),
   ("VoltageElm", "V"), ("CurrentElm", "I"), ("DiodeElm", "D"),
   ("PotElm", "P"), ("RailElm", "Vr"), ("VarRailElm", "Vr"),
   ("OpAmpElm", "U"), ("TransistorElm", "Q"), ("MosfetElm", "M"),
   ("SwitchElm", "S"), ("Switch2Elm", "S"), ("ZenerElm", "Dz"),
   ("LEDElm", "LED"), ("TransformerElm", "T")]

/-- First pass (source lines 173-181): collect `user_labels` (index → label,
a dict) and `used_labels` (the set of user labels), skipping wires and
empty labels. -/
def pass1 (elements : List ElementInfo) : List (Int × String) × List String :=
  elements.foldl
    (fun st e =>
      if e.etype = "WireElm" then st
      else if e.label = "" then st
      else (aInsert e.index e.label st.1, sInsert e.label st.2))
    ([], [])

/-- `d.setdefault(k, []).append(v)`. -/
def appendToKey {α β : Type} [DecidableEq α] (d : List (α × List β)) (k : α) (v : β) :
    List (α × List β) :=
  match alookup d k with
  | none => d ++ [(k, [v])]
  | some l => aInsert k (l ++ [v]) d

/-- `by_type` (source lines 184-190): unlabeled non-wire element indices
grouped by type tag. -/
def byType (elements : List ElementInfo) (user_labels : List (Int × String)) :
    List (String × List Int) :=
  elements.foldl
    (fun d e =>
      if e.etype = "WireElm" then d
      else if (alookup user_labels e.index).isSome then d
      else appendToKey d e.etype e.index)
    []

/-- The `while label in used_labels: seq += 1` scan: smallest `s ≥ seq` with
`pfx ++ str(s)` unused.  Fuel `|used| + 1` always suffices (the candidate
labels are pairwise distinct, see `firstFree_not_mem`). -/
def firstFreeAux : Nat → String → Nat → List String → Nat
  | 0, _, seq, _ => seq
  | fuel + 1, pfx, seq, used =>
    if pfx ++ natRepr seq ∈ used then firstFreeAux fuel pfx (seq + 1) used else seq

def firstFree (pfx : String) (seq : Nat) (used : List String) : Nat :=
  firstFreeAux (used.length + 1) pfx seq used

/-- The three mutated collections of the assignment loop. -/
structure LabelState where
  label_map : List (String × Int)
  index_to_label : List (Int × String)
  used : List String
deriving DecidableEq

/-- Body of the inner `for idx in indices` loop (source lines 205-213); the
`Nat` component carries `seq`. -/
def assignIndex (pfx : String) (st : LabelState × Nat) (idx : Int) : LabelState × Nat :=
  let s := firstFree pfx st.2 st.1.used
  let label := pfx ++ natRepr s
  (⟨aInsert label idx st.1.label_map,
    aInsert idx label st.1.index_to_label,
    sInsert label st.1.used⟩, s + 1)

/-- Body of the outer `for etype in sorted(by_type)` loop (source lines
201-213): look up the prefix (falling back to the first two characters of
the tag), sort the indices, reset `seq` to 1. -/
def assignType (by_type : List (String × List Int)) (st : LabelState) (etype : String) :
    LabelState :=
  let pfx := (alookup ELEMENT_LABEL_PFX etype).getD (String.mk (etype.data.take 2))
  ((sortBy intLe ((alookup by_type etype).getD [])).foldl (assignIndex pfx) (st, 1)).1

/-- Registration of the user labels into `label_map` (source line 197). -/
def labelMap0 (elements : List ElementInfo) : List (String × Int) :=
  (pass1 elements).1.foldl (fun m il => aInsert il.2 il.1 m) []

/-- Registration of the user labels into `index_to_label` (source line 198). -/
def indexToLabel0 (elements : List ElementInfo) : List (Int × String) :=
  (pass1 elements).1.foldl (fun m il => aInsert il.1 il.2 m) []

/-- The three collections after both passes. -/
def labelStateFinal (elements : List ElementInfo) : LabelState :=
  let ul := (pass1 elements).1
  let bt := byType elements ul
  (sortBy strLe (bt.map Prod.fst)).foldl (assignType bt)
    ⟨labelMap0 elements, indexToLabel0 elements, (pass1 elements).2⟩

/-- `_assign_element_labels`: returns `(label_map, index_to_label)`. -/
def _assign_element_labels (elements : List ElementInfo) :
    List (String × Int) × List (Int × String) :=
  ((labelStateFinal elements).label_map, (labelStateFinal elements).index_to_label)

/-! ### Freshness of generated labels -/

theorem label_inj (pfx : String) {s t : Nat}
    (h : pfx ++ natRepr s = pfx ++ natRepr t) : s = t := by
  apply natRepr_injective
  apply String.ext
  have := congrArg String.data h
  rw [String.data_append, String.data_append] at this
  exact List.append_cancel_left this

theorem firstFreeAux_spec (pfx : String) :
    ∀ (fuel seq : Nat) (used : List String),
      (∃ k, k < fuel ∧ pfx ++ natRepr (seq + k) ∉ used) →
      pfx ++ natRepr (firstFreeAux fuel pfx seq used) ∉ used := by
  intro fuel
  induction fuel with
  | zero =>
    intro seq used h
    obtain ⟨k, hk, _⟩ := h
    omega
  | succ f ih =>
    intro seq used h
    show pfx ++ natRepr (if pfx ++ natRepr seq ∈ used then firstFreeAux f pfx (seq + 1) used else seq) ∉ used
    by_cases hmem : pfx ++ natRepr seq ∈ used
    · rw [if_pos hmem]
      apply ih
      obtain ⟨k, hk, hfree⟩ := h
      match k with
      | 0 => exact absurd hmem (by simpa using hfree)
      | k' + 1 => exact ⟨k', by omega, by rw [show seq + 1 + k' = seq + (k' + 1) by omega]; exact hfree⟩
    · rw [if_neg hmem]
      exact hmem

theorem firstFree_not_mem (pfx : String) (seq : Nat) (used : List String) :
    pfx ++ natRepr (firstFree pfx seq used) ∉ used := by
  apply firstFreeAux_spec
  by_contra hall
  push_neg at hall
  have hin : ∀ k : Fin (used.length + 1), pfx ++ natRepr (seq + k.1) ∈ used.toFinset := by
    intro k
    rw [List.mem_toFinset]
    exact hall k.1 k.2
  have hcard : (Finset.univ : Finset (Fin (used.length + 1))).card ≤ used.toFinset.card := by
    apply Finset.card_le_card_of_injOn (fun k : Fin (used.length + 1) => pfx ++ natRepr (seq + k.1))
    · intro k _
      exact hin k
    · intro k₁ _ k₂ _ hk
      have := label_inj pfx hk
      exact Fin.ext (by omega)
  rw [Finset.card_univ, Fintype.card_fin] at hcard
  have := List.toFinset_card_le used
  omega

theorem foldl_preserve {α σ : Type} (P : σ → Prop) (f : σ → α → σ) :
    ∀ (l : List α) (s : σ), (∀ s' x, x ∈ l → P s' → P (f s' x)) → P s → P (l.foldl f s) := by
  intro l
  induction l with
  | nil => intro s _ hs; exact hs
  | cons x xs ih =>
    intro s hstep hs
    exact ih (f s x) (fun s' y hy => hstep s' y (List.mem_cons_of_mem x hy))
      (hstep s x (List.mem_cons_self x xs) hs)

/-! ### Facts about pass 1 and the initial maps -/

theorem pass1_values_used (elements : List ElementInfo) :
    ∀ il ∈ (pass1 elements).1, il.2 ∈ (pass1 elements).2 := by
  unfold pass1
  apply foldl_preserve
    (fun st : List (Int × String) × List String => ∀ il ∈ st.1, il.2 ∈ st.2)
  · intro st e _ hst il hil
    by_cases hw : e.etype = "WireElm"
    · rw [if_pos hw] at hil ⊢
      exact hst il hil
    · rw [if_neg hw] at hil ⊢
      by_cases hl : e.label = ""
      · rw [if_pos hl] at hil ⊢
        exact hst il hil
      · rw [if_neg hl] at hil ⊢
        rcases mem_aInsert hil with rfl | hil'
        · exact mem_sInsert_self _ _
        · exact subset_sInsert _ _ (hst il hil')
  · intro il hil
    simp at hil

theorem foldl_aInsert_mem {α β : Type} [DecidableEq α] (g : (α × β) → (α × β)) :
    ∀ (ps : List (α × β)) (m₀ : List (α × β)) (il : α × β),
      il ∈ ps.foldl (fun m q => aInsert (g q).1 (g q).2 m) m₀ →
      (∃ q ∈ ps, il = g q) ∨ il ∈ m₀ := by
  intro ps
  induction ps with
  | nil => intro m₀ il h; exact Or.inr h
  | cons q rest ih =>
    intro m₀ il h
    rcases ih _ il h with ⟨q', hq', he⟩ | hm
    · exact Or.inl ⟨q', List.mem_cons_of_mem q hq', he⟩
    · rcases mem_aInsert hm with he | hm'
      · exact Or.inl ⟨q, List.mem_cons_self q rest, by rw [he]⟩
      · exact Or.inr hm'

theorem foldl_aInsert_lookup {α β : Type} [DecidableEq α] :
    ∀ (ps : List (α × β)) (m₀ : List (α × β)),
      (ps.map Prod.fst).Nodup →
      ∀ il ∈ ps, alookup (ps.foldl (fun m q => aInsert q.1 q.2 m) m₀) il.1 = some il.2 := by
  intro ps
  induction ps with
  | nil => intro m₀ _ il hil; simp at hil
  | cons q rest ih =>
    intro m₀ hnd il hil
    rw [List.map_cons, List.nodup_cons] at hnd
    rcases List.mem_cons.mp hil with rfl | hil'
    · show alookup (rest.foldl (fun m q => aInsert q.1 q.2 m) (aInsert il.1 il.2 m₀)) il.1
        = some il.2
      have huntouched : ∀ (rest' : List (α × β)) (m : List (α × β)),
          il.1 ∉ rest'.map Prod.fst →
          alookup (rest'.foldl (fun m q => aInsert q.1 q.2 m) m) il.1 = alookup m il.1 := by
        intro rest'
        induction rest' with
        | nil => intro m _; rfl
        | cons r rs ihr =>
          intro m hk
          rw [List.map_cons, List.mem_cons] at hk
          push_neg at hk
          show alookup (rs.foldl (fun m q => aInsert q.1 q.2 m) (aInsert r.1 r.2 m)) il.1 = _
          rw [ihr _ hk.2]
          exact alookup_aInsert_ne r.1 il.1 r.2 m hk.1
      rw [huntouched rest _ hnd.1, alookup_aInsert_self]
    · exact ih _ hnd.2 il hil'

/-! ### The assignment-loop invariants -/

/-- Invariant for collision-freedom and the label round trip, threaded
through the auto-assignment loop. -/
def StOk (st : LabelState) : Prop :=
  (∀ il ∈ st.index_to_label, il.2 ∈ st.used)
    ∧ (∀ il ∈ st.index_to_label, ∀ il' ∈ st.index_to_label, il.1 ≠ il'.1 → il.2 ≠ il'.2)
    ∧ (∀ il ∈ st.index_to_label, alookup st.label_map il.2 = some il.1)

theorem StOk_insert (st : LabelState) (idx : Int) (L : String)
    (hL : L ∉ st.used) (h : StOk st) :
    StOk ⟨aInsert L idx st.label_map, aInsert idx L st.index_to_label,
      sInsert L st.used⟩ := by
  obtain ⟨hused, hinj, hrt⟩ := h
  refine ⟨?_, ?_, ?_⟩
  · intro il hil
    rcases mem_aInsert hil with rfl | hil'
    · exact mem_sInsert_self _ _
    · exact subset_sInsert _ _ (hused il hil')
  · intro il hil il' hil' hne
    rcases mem_aInsert hil with rfl | h1 <;> rcases mem_aInsert hil' with he2 | h2
    · rw [he2] at hne
      exact absurd rfl hne
    · intro he
      apply hL
      have hm := hused il' h2
      rw [← he] at hm
      exact hm
    · rw [he2]
      intro he
      apply hL
      have hm := hused il h1
      rw [he] at hm
      exact hm
    · exact hinj il h1 il' h2 hne
  · intro il hil
    rcases mem_aInsert hil with rfl | hil'
    · exact alookup_aInsert_self _ _ _
    · have hneL : il.2 ≠ L := by
        intro he
        apply hL
        have hm := hused il hil'
        rw [he] at hm
        exact hm
      show alookup (aInsert L idx st.label_map) il.2 = some il.1
      rw [alookup_aInsert_ne _ _ _ _ hneL]
      exact hrt il hil'

theorem StOk_assignIndex (pfx : String) (st : LabelState × Nat) (idx : Int)
    (h : StOk st.1) : StOk (assignIndex pfx st idx).1 :=
  StOk_insert st.1 idx (pfx ++ natRepr (firstFree pfx st.2 st.1.used))
    (firstFree_not_mem pfx st.2 st.1.used) h

theorem StOk_assignType (bt : List (String × List Int)) (st : LabelState) (etype : String)
    (h : StOk st) : StOk (assignType bt st etype) := by
  unfold assignType
  have := foldl_preserve (fun p : LabelState × Nat => StOk p.1)
    (assignIndex ((alookup ELEMENT_LABEL_PFX etype).getD (String.mk (etype.data.take 2))))
    (sortBy intLe ((alookup bt etype).getD [])) (st, 1)
    (fun s' x _ hs => StOk_assignIndex _ s' x hs) h
  exact this

/-- Invariant that holds with no assumption on the user labels: every label
assigned by the auto pass (an `index_to_label` entry whose index has no
`user_labels` entry) is in `used` and outside the user-label set, and no two
such entries for different indices share a label. -/
def AutoOk (ul : List (Int × String)) (used0 : List String) (st : LabelState) : Prop :=
  (∀ l ∈ used0, l ∈ st.used)
    ∧ (∀ il ∈ st.index_to_label, alookup ul il.1 = none → il.2 ∈ st.used ∧ il.2 ∉ used0)
    ∧ (∀ il ∈ st.index_to_label, ∀ il' ∈ st.index_to_label,
        alookup ul il.1 = none → alookup ul il'.1 = none → il.1 ≠ il'.1 → il.2 ≠ il'.2)

theorem AutoOk_insert (ul : List (Int × String)) (used0 : List String) (st : LabelState)
    (idx : Int) (L : String) (hL : L ∉ st.used) (h : AutoOk ul used0 st) :
    AutoOk ul used0
      ⟨aInsert L idx st.label_map, aInsert idx L st.index_to_label, sInsert L st.used⟩ := by
  obtain ⟨h0, h1, h2⟩ := h
  refine ⟨?_, ?_, ?_⟩
  · intro l hl
    exact subset_sInsert _ _ (h0 l hl)
  · intro il hil hnone
    rcases mem_aInsert hil with rfl | hil'
    · exact ⟨mem_sInsert_self _ _, fun hu => hL (h0 _ hu)⟩
    · obtain ⟨hu, hnu⟩ := h1 il hil' hnone
      exact ⟨subset_sInsert _ _ hu, hnu⟩
  · intro il hil il' hil' hn hn' hne
    rcases mem_aInsert hil with rfl | hm <;> rcases mem_aInsert hil' with he2 | hm'
    · rw [he2] at hne
      exact absurd rfl hne
    · intro he
      apply hL
      have := (h1 il' hm' hn').1
      rw [← he] at this
      exact this
    · rw [he2]
      intro he
      apply hL
      have := (h1 il hm hn).1
      rw [he] at this
      exact this
    · exact h2 il hm il' hm' hn hn' hne

theorem AutoOk_assignIndex (ul : List (Int × String)) (used0 : List String) (pfx : String)
    (st : LabelState × Nat) (idx : Int) (h : AutoOk ul used0 st.1) :
    AutoOk ul used0 (assignIndex pfx st idx).1 :=
  AutoOk_insert ul used0 st.1 idx (pfx ++ natRepr (firstFree pfx st.2 st.1.used))
    (firstFree_not_mem pfx st.2 st.1.used) h

theorem AutoOk_assignType (ul : List (Int × String)) (used0 : List String)
    (bt : List (String × List Int)) (st : LabelState) (etype : String)
    (h : AutoOk ul used0 st) : AutoOk ul used0 (assignType bt st etype) := by
  unfold assignType
  exact foldl_preserve (fun p : LabelState × Nat => AutoOk ul used0 p.1)
    (assignIndex ((alookup ELEMENT_LABEL_PFX etype).getD (String.mk (etype.data.take 2))))
    (sortBy intLe ((alookup bt etype).getD [])) (st, 1)
    (fun s' x _ hs => AutoOk_assignIndex ul used0 _ s' x hs) h

theorem nodup_map_inj {α β : Type} {f : α → β} :
    ∀ {l : List α}, (l.map f).Nodup → ∀ a ∈ l, ∀ b ∈ l, f a = f b → a = b := by
  intro l
  induction l with
  | nil => intro _ a ha; simp at ha
  | cons x xs ih =>
    intro hnd a ha b hb hf
    rw [List.map_cons, List.nodup_cons] at hnd
    rcases List.mem_cons.mp ha with rfl | ha' <;> rcases List.mem_cons.mp hb with rfl | hb'
    · rfl
    · exact absurd (List.mem_map.mpr ⟨b, hb', hf.symm⟩) hnd.1
    · exact absurd (List.mem_map.mpr ⟨a, ha', hf⟩) hnd.1
    · exact ih hnd.2 a ha' b hb' hf

theorem indexToLabel0_sub (elements : List ElementInfo) :
    ∀ il ∈ indexToLabel0 elements, il ∈ (pass1 elements).1 := by
  intro il hil
  have := foldl_aInsert_mem (id : Int × String → Int × String) (pass1 elements).1 [] il hil
  rcases this with ⟨q, hq, he⟩ | hm
  · rw [he]; exact hq
  · simp at hm

theorem mem_of_alookup_ne_none {α β : Type} [DecidableEq α] {m : List (α × β)} {k : α} {v : β}
    (h : (k, v) ∈ m) : alookup m k ≠ none := by
  intro hn
  exact (alookup_eq_none_iff m k).mp hn (List.mem_map.mpr ⟨(k, v), h, rfl⟩)

theorem AutoOk_init (elements : List ElementInfo) :
    AutoOk (pass1 elements).1 (pass1 elements).2
      ⟨labelMap0 elements, indexToLabel0 elements, (pass1 elements).2⟩ := by
  refine ⟨fun l hl => hl, ?_, ?_⟩
  · intro il hil hnone
    exact absurd hnone (mem_of_alookup_ne_none (indexToLabel0_sub elements il hil))
  · intro il hil il' hil' hn _ _
    exact absurd hn (mem_of_alookup_ne_none (indexToLabel0_sub elements il hil))

theorem StOk_init (elements : List ElementInfo)
    (hnd : ((pass1 elements).1.map Prod.snd).Nodup) :
    StOk ⟨labelMap0 elements, indexToLabel0 elements, (pass1 elements).2⟩ := by
  refine ⟨?_, ?_, ?_⟩
  · intro il hil
    exact pass1_values_used elements il (indexToLabel0_sub elements il hil)
  · intro il hil il' hil' hne hf
    exact hne (congrArg Prod.fst
      (nodup_map_inj hnd il (indexToLabel0_sub elements il hil)
        il' (indexToLabel0_sub elements il' hil') hf))
  · intro il hil
    have hmem := indexToLabel0_sub elements il hil
    show alookup (labelMap0 elements) il.2 = some il.1
    unfold labelMap0
    rw [show ((pass1 elements).1.foldl (fun m il => aInsert il.2 il.1 m) [])
        = (((pass1 elements).1.map Prod.swap).foldl (fun m q => aInsert q.1 q.2 m) []) from by
      rw [List.foldl_map]
      rfl]
    have hnd' : (((pass1 elements).1.map Prod.swap).map Prod.fst).Nodup := by
      rw [List.map_map]
      exact hnd
    have := foldl_aInsert_lookup ((pass1 elements).1.map Prod.swap) [] hnd'
      il.swap (List.mem_map.mpr ⟨il, hmem, rfl⟩)
    exact this

theorem StOk_final (elements : List ElementInfo)
    (hnd : ((pass1 elements).1.map Prod.snd).Nodup) :
    StOk (labelStateFinal elements) := by
  unfold labelStateFinal
  exact foldl_preserve StOk _ _ _
    (fun s' t _ hs => StOk_assignType _ s' t hs) (StOk_init elements hnd)

theorem AutoOk_final (elements : List ElementInfo) :
    AutoOk (pass1 elements).1 (pass1 elements).2 (labelStateFinal elements) := by
  unfold labelStateFinal
  exact foldl_preserve (AutoOk (pass1 elements).1 (pass1 elements).2) _ _ _
    (fun s' t _ hs => AutoOk_assignType _ _ _ s' t hs) (AutoOk_init elements)

/-! ### Claim C2 -/

/-- C2 (amended): (a) unconditionally, an auto-generated label (one given to
an element index with no user label) never equals any user-supplied label,
and no two auto-labelled indices share a label; (b) provided the
user-supplied labels collected in pass 1 are pairwise distinct, no two
element indices receive the same label at all.  (The user-label set of
pass 1 is exactly `(pass1 elements).2`.) -/
theorem C2_label_collision (elements : List ElementInfo) :
    (∀ il ∈ (_assign_element_labels elements).2,
        alookup (pass1 elements).1 il.1 = none → il.2 ∉ (pass1 elements).2)
    ∧ (∀ il ∈ (_assign_element_labels elements).2,
        ∀ il' ∈ (_assign_element_labels elements).2,
        alookup (pass1 elements).1 il.1 = none → alookup (pass1 elements).1 il'.1 = none →
        il.1 ≠ il'.1 → il.2 ≠ il'.2)
    ∧ (((pass1 elements).1.map Prod.snd).Nodup →
        ∀ il ∈ (_assign_element_labels elements).2,
        ∀ il' ∈ (_assign_element_labels elements).2,
        il.1 ≠ il'.1 → il.2 ≠ il'.2) := by
  obtain ⟨_, ha1, ha2⟩ := AutoOk_final elements
  refine ⟨?_, ?_, ?_⟩
  · intro il hil hnone
    exact (ha1 il hil hnone).2
  · intro il hil il' hil' hn hn' hne
    exact ha2 il hil il' hil' hn hn' hne
  · intro hnd il hil il' hil' hne
    exact (StOk_final elements hnd).2.1 il hil il' hil' hne

/-- Concrete input for the C2 counterexample: two non-wire elements carrying
the same user label `X`. -/
def dupLabelElems : List ElementInfo :=
  [⟨0, "ResistorElm", "X", 2⟩, ⟨1, "CapacitorElm", "X", 2⟩]

/-- C2 (counterexample): with duplicated user labels, two distinct elements
both receive the label `X`, so the claim as stated (collision-freedom for
every element list with user labels) fails. -/
theorem C2_counterexample :
    ((0 : Int), "X") ∈ (_assign_element_labels dupLabelElems).2
      ∧ ((1 : Int), "X") ∈ (_assign_element_labels dupLabelElems).2
      ∧ (0 : Int) ≠ 1 :=
  ⟨by decide, by decide, by decide⟩

/-- Concrete input for the C2 witness: one user label plus two auto labels
of the same type prefix. -/
def c2Elems : List ElementInfo :=
  [⟨0, "ResistorElm", "", 2⟩, ⟨1, "ResistorElm", "R7", 2⟩, ⟨2, "ResistorElm", "", 2⟩]

/-- C2 (witness): the amended theorem applied at a concrete list — the auto
label of element 0 avoids the user-label set, and elements 0 and 1 get
different labels under the distinctness hypothesis. -/
theorem C2_witness :
    ("R1" : String) ∉ (pass1 c2Elems).2 ∧ ("R1" : String) ≠ "R7" :=
  ⟨(C2_label_collision c2Elems).1 (0, "R1") (by decide) (by decide),
    (C2_label_collision c2Elems).2.2 (by decide) (0, "R1") (by decide)
      (1, "R7") (by decide) (by decide)⟩

/-! ### Claim C8 -/

/-- C8 (amended): provided the user-supplied labels collected in pass 1 are
pairwise distinct, every label recorded for an element index resolves
through the returned `label_map` back to that same index. -/
theorem C8_label_roundtrip (elements : List ElementInfo)
    (hnd : ((pass1 elements).1.map Prod.snd).Nodup) :
    ∀ il ∈ (_assign_element_labels elements).2,
      alookup (_assign_element_labels elements).1 il.2 = some il.1 :=
  fun il hil => (StOk_final elements hnd).2.2 il hil

/-- Concrete input for the C8 counterexample. -/
def dupLabelElemsB : List ElementInfo :=
  [⟨3, "ResistorElm", "Y", 2⟩, ⟨4, "CapacitorElm", "Y", 2⟩]

/-- C8 (counterexample): with duplicated user labels the round trip fails —
element 3 is labelled `Y`, but `label_map['Y']` resolves to element 4. -/
theorem C8_counterexample :
    ((3 : Int), "Y") ∈ (_assign_element_labels dupLabelElemsB).2
      ∧ alookup (_assign_element_labels dupLabelElemsB).1 "Y" = some 4
      ∧ ((4 : Int) : Int) ≠ 3 :=
  ⟨by decide, by decide, by decide⟩

/-- Concrete input for the C8 witness. -/
def c8Elems : List ElementInfo :=
  [⟨0, "CapacitorElm", "", 2⟩, ⟨1, "ResistorElm", "Rload", 2⟩]

/-- C8 (witness): the amended round trip applied at a concrete list, for
both a user label and an auto label. -/
theorem C8_witness :
    alookup (_assign_element_labels c8Elems).1 "Rload" = some 1
      ∧ alookup (_assign_element_labels c8Elems).1 "C1" = some 0 :=
  ⟨C8_label_roundtrip c8Elems (by decide) (1, "Rload") (by decide),
    C8_label_roundtrip c8Elems (by decide) (0, "C1") (by decide)⟩

/-! ### Value extraction (`_si_format` and `_parse_element_values`) -/

/-- A parsed Python float: finite exact rational, signed infinity, or NaN. -/
inductive PyVal where
  | fin (q : QNum)
  | inf (neg : Bool)
  | nan
deriving DecidableEq

/-- Build the exact value `±mant · 10^(ex - fracLen)`. -/
def mkDec (neg : Bool) (mant : Nat) (ex : Int) (fracLen : Nat) : QNum :=
  let e : Int := ex - (fracLen : Int)
  let sign : Int := if neg then -1 else 1
  if e ≥ 0 then ⟨sign * (mant : Int) * 10 ^ e.toNat, 1⟩
  else ⟨sign * (mant : Int), 10 ^ ((-e).toNat)⟩

/-- Python `float(token)`: optional whitespace and sign; `inf`, `infinity`
or `nan` case-insensitively; else `digits[.digits][e[sign]digits]` with at
least one mantissa digit.  (Underscore separators are not modelled.) -/
def pyFloat? (s : List Char) : Option PyVal :=
  let t := pyStrip s
  let sg : Bool × List Char :=
    match t with
    | '+' :: r => (false, r)
    | '-' :: r => (true, r)
    | r => (false, r)
  let neg := sg.1
  let t1 := sg.2
  let low := t1.map Char.toLower
  if low = "inf".data ∨ low = "infinity".data then some (PyVal.inf neg)
  else if low = "nan".data then some PyVal.nan
  else
    let ip := t1.takeWhile Char.isDigit
    let r1 := t1.dropWhile Char.isDigit
    let fr : List Char × List Char :=
      match r1 with
      | '.' :: r => (r.takeWhile Char.isDigit, r.dropWhile Char.isDigit)
      | _ => ([], r1)
    let fp := fr.1
    let r2 := fr.2
    if ip = [] ∧ fp = [] then none
    else
      match r2 with
      | [] => some (PyVal.fin (mkDec neg (digitsVal (ip ++ fp)) 0 fp.length))
      | e :: r3 =>
        if e = 'e' ∨ e = 'E' then
          let esg : Bool × List Char :=
            match r3 with
            | '+' :: r => (false, r)
            | '-' :: r => (true, r)
            | r => (false, r)
          if esg.2 ≠ [] ∧ esg.2.all Char.isDigit then
            some (PyVal.fin (mkDec neg (digitsVal (ip ++ fp))
              (if esg.1 then -((digitsVal esg.2 : Nat) : Int) else ((digitsVal esg.2 : Nat) : Int))
              fp.length))
          else none
        else none

/-- Source table `ELEMENT_TYPE_UNITS`. -/
def ELEMENT_TYPE_UNITS : List (String × String) :=
  [("ResistorElm", "Ω"), ("CapacitorElm", "F"), ("InductorElm", "H"),
   ("VoltageElm", "V"), ("CurrentElm", "A"), ("DiodeElm", ""),
   ("PotElm", "Ω"), ("VarRailElm", "V"), ("RailElm", "V")]

/-- Source table `_VALUE_PARAM_OFFSET`. -/
def _VALUE_PARAM_OFFSET : List (String × Nat) := [("v", 1), ("R", 1), ("174", 1)]

/-- The `(threshold, prefix)` list of `_si_format`, thresholds as powers of
ten. -/
def siThresholds : List (Int × String) :=
  [(12, "T"), (9, "G"), (6, "M"), (3, "k"), (0, ""), (-3, "m"),
   (-6, "μ"), (-9, "n"), (-12, "p")]

def pvAbsGe (v : PyVal) (k : Int) : Bool :=
  match v with
  | PyVal.fin q => qAbsGePow10 q k
  | PyVal.inf _ => true
  | PyVal.nan => false

def pvDivPow10 (v : PyVal) (k : Int) : PyVal :=
  match v with
  | PyVal.fin q => PyVal.fin (qDivPow10 q k)
  | v => v

def pvIsZero (v : PyVal) : Bool :=
  match v with
  | PyVal.fin q => q.num = 0
  | _ => false

/-- `f'{val:.4g}'`. -/
def fmt4g (v : PyVal) : String :=
  match v with
  | PyVal.fin q => pyGFormat 4 q
  | PyVal.inf neg => if neg then "-inf" else "inf"
  | PyVal.nan => "nan"

/-- The threshold loop of `_si_format`: first prefix whose threshold does
not exceed `|val|`. -/
def siLoop (v : PyVal) (unit : String) : List (Int × String) → Option String
  | [] => none
  | (k, pfx) :: rest =>
    if pvAbsGe v k then some (pyStripStr (fmt4g (pvDivPow10 v k) ++ " " ++ pfx ++ unit))
    else siLoop v unit rest

/-- `_si_format(value, unit)`: on a parse failure returns `str(value)` — the
raw token unchanged, not the empty string. -/
def _si_format (value : List Char) (unit : String) : String :=
  match pyFloat? value with
  | none => String.mk value
  | some v =>
    if pvIsZero v then pyStripStr ("0 " ++ unit)
    else
      match siLoop v unit siThresholds with
      | some s => s
      | none => pyStripStr (fmt4g v ++ " " ++ unit)

/-- The per-element body of `_parse_element_values` (source lines 141-157);
`lines` is the meta-stripped view, identical to `_get_element_lines` (the
source duplicates the same filter inline). -/
def elementValueAt (lines : List (List Char)) (i : Nat) (elem : ElementInfo) : String :=
  if i < lines.length then
    let fields := pySplitSpace (lines.getD i [])
    let type_code := fields.headD []
    let first_param_idx := 2 * elem.posts + 2
    let value_offset := (alookup _VALUE_PARAM_OFFSET (String.mk type_code)).getD 0
    let param_idx := first_param_idx + value_offset
    if param_idx < fields.length then
      _si_format (fields.getD param_idx []) ((alookup ELEMENT_TYPE_UNITS elem.etype).getD "")
    else ""
  else ""

/-- `_parse_element_values`: one human-readable value string per element. -/
def _parse_element_values (export_text : String) (elements : List ElementInfo) :
    List String :=
  elements.enum.map (fun ie => elementValueAt (_get_element_lines export_text) ie.1 ie.2)

/-! ### Claim C4 -/

/-- C4 (amended): value extraction is total (one output string per element,
for every input — the embedded function has no failure path, mirroring the
caught `ValueError`/`TypeError`); an element whose export line is missing
yields the empty string; an element whose value token is out of range
yields the empty string; but a value token that is present and non-numeric
yields the raw token itself (`str(value)`), not the empty string. -/
theorem C4_value_extraction :
    (∀ (export_text : String) (elements : List ElementInfo),
      (_parse_element_values export_text elements).length = elements.length)
    ∧ (∀ (lines : List (List Char)) (i : Nat) (elem : ElementInfo),
        lines.length ≤ i → elementValueAt lines i elem = "")
    ∧ (∀ (lines : List (List Char)) (i : Nat) (elem : ElementInfo),
        i < lines.length →
        (pySplitSpace (lines.getD i [])).length
            ≤ 2 * elem.posts + 2
              + (alookup _VALUE_PARAM_OFFSET
                  (String.mk ((pySplitSpace (lines.getD i [])).headD []))).getD 0 →
        elementValueAt lines i elem = "")
    ∧ (∀ (raw : List Char) (unit : String),
        pyFloat? raw = none → _si_format raw unit = String.mk raw) := by
  refine ⟨?_, ?_, ?_, ?_⟩
  · intro export_text elements
    unfold _parse_element_values
    rw [List.length_map, List.enum_length]
  · intro lines i elem h
    unfold elementValueAt
    rw [if_neg (by omega)]
  · intro lines i elem hi hlen
    unfold elementValueAt
    rw [if_pos hi, if_neg (by omega)]
  · intro raw unit h
    unfold _si_format
    rw [h]

/-- Concrete input for the C4 counterexample: the value token `abc` is
present but non-numeric. -/
def c4Export : String := "x 0 0 1 1 0 abc"

def c4Elems : List ElementInfo := [⟨0, "XElm", "", 2⟩]

/-- C4 (counterexample): a present but non-numeric value token comes back
as the raw token `abc`, not the empty string the claim requires. -/
theorem C4_counterexample :
    _parse_element_values c4Export c4Elems = ["abc"] ∧ ("abc" : String) ≠ "" :=
  ⟨by decide, by decide⟩

/-- C4 (witness): the amended theorem applied at concrete inputs — a
missing line, a missing token, and the non-numeric token `abc`. -/
theorem C4_witness :
    elementValueAt [] 0 ⟨0, "XElm", "", 2⟩ = ""
      ∧ elementValueAt ["x 0 0 1 1 0".data] 0 ⟨0, "XElm", "", 2⟩ = ""
      ∧ _si_format "abc".data "V" = "abc" :=
  ⟨C4_value_extraction.2.1 [] 0 ⟨0, "XElm", "", 2⟩ (by decide),
    C4_value_extraction.2.2.1 ["x 0 0 1 1 0".data] 0 ⟨0, "XElm", "", 2⟩ (by decide) (by decide),
    C4_value_extraction.2.2.2 "abc".data "V" (by decide)⟩

/-! ### Measurement model (source lines 44-381) -/

def SOURCE_NODE : String := "node"
def SOURCE_ELEMENT : String := "element"
def SOURCE_EXPRESSION : String := "expression"

def PROPERTY_UNITS : List (String × String) :=
  [("nodeVoltage", "V"), ("current", "A"), ("voltageDiff", "V"), ("power", "W")]

/-- Source table `PROPERTY_PREFIX`. -/
def PROPERTY_PFX : List (String × String) :=
  [("nodeVoltage", "V"), ("current", "I"), ("voltageDiff", "V"), ("power", "P")]

/-- The `Measurement` dataclass; `target` is the exact-rational float model. -/
structure Measurement where
  source_type : String
  identifier : String
  property : String
  target : QNum
  tolerance : QNum
  graded : Bool
  tolerance_type : String := "absolute"
  target_expr : String := ""
  element_index : Int := -1
deriving DecidableEq

def Measurement.unit (m : Measurement) : String :=
  if m.source_type = SOURCE_EXPRESSION then ""
  else (alookup PROPERTY_UNITS m.property).getD "V"

/-- `Measurement.data_key`: the key used in `event.data.values`. -/
def Measurement.data_key (m : Measurement) : Option String :=
  if m.source_type = SOURCE_NODE then some m.identifier
  else if m.source_type = SOURCE_EXPRESSION then none
  else if m.element_index ≥ 0 then some (intRepr m.element_index ++ ":" ++ m.property)
  else some (m.identifier ++ ":" ++ m.property)

/-- `re.sub(r'[^A-Za-z0-9_]', '_', ...)` applied characterwise. -/
def sanitizeChar (c : Char) : Char :=
  if c.isAlpha || c.isDigit || c = '_' then c else '_'

def Measurement.display_name (m : Measurement) : String :=
  if m.source_type = SOURCE_EXPRESSION then
    "expr_" ++ String.mk (m.identifier.data.map sanitizeChar)
  else (alookup PROPERTY_PFX m.property).getD "V" ++ "_" ++ m.identifier

/-- `input_name(self, index)`: `ans1`, `ans2`, ... -/
def Measurement.input_name (_m : Measurement) (index : Nat) : String :=
  "ans" ++ natRepr (index + 1)

/-! ### Claims C5 and C10 -/

/-- C5: the live-data key is the identifier for node-sourced measurements,
`"{element_index}:{property}"` for element-sourced measurements with a
resolved (non-negative) index, and absent for expression-sourced
measurements. -/
theorem C5_data_key (m : Measurement) :
    (m.source_type = SOURCE_NODE → m.data_key = some m.identifier)
    ∧ (m.source_type = SOURCE_ELEMENT → 0 ≤ m.element_index →
        m.data_key = some (intRepr m.element_index ++ ":" ++ m.property))
    ∧ (m.source_type = SOURCE_EXPRESSION → m.data_key = none) := by
  refine ⟨?_, ?_, ?_⟩
  · intro h
    unfold Measurement.data_key
    rw [if_pos h]
  · intro h hge
    unfold Measurement.data_key
    rw [h]
    rw [if_neg (by decide), if_neg (by decide), if_pos hge]
  · intro h
    unfold Measurement.data_key
    rw [h]
    rw [if_neg (by decide), if_pos rfl]

/-- C5 (witness): the three key shapes at concrete measurements. -/
theorem C5_witness :
    (Measurement.data_key ⟨"node", "VA", "nodeVoltage", ⟨5, 1⟩, ⟨1, 10⟩, true, "absolute", "", -1⟩
        = some "VA")
      ∧ (Measurement.data_key ⟨"element", "R1", "current", ⟨0, 1⟩, ⟨1, 10⟩, true, "absolute", "", 3⟩
        = some "3:current")
      ∧ (Measurement.data_key ⟨"expression", "V_a*I_b", "power", ⟨0, 1⟩, ⟨1, 10⟩, true, "absolute", "", -1⟩
        = none) :=
  ⟨(C5_data_key _).1 rfl,
    (C5_data_key ⟨"element", "R1", "current", ⟨0, 1⟩, ⟨1, 10⟩, true, "absolute", "", 3⟩).2.1
      rfl (by decide),
    (C5_data_key _).2.2 rfl⟩

/-- C10: for an element-sourced measurement with an unresolved (negative)
index, the key falls back to `"{identifier}:{property}"`, and a resolved
index is the only other element-sourced case (which keys by index). -/
theorem C10_element_key_fallback (m : Measurement) (hs : m.source_type = SOURCE_ELEMENT) :
    (m.element_index < 0 → m.data_key = some (m.identifier ++ ":" ++ m.property))
    ∧ (0 ≤ m.element_index → m.data_key = some (intRepr m.element_index ++ ":" ++ m.property)) := by
  constructor
  · intro hlt
    unfold Measurement.data_key
    rw [hs]
    rw [if_neg (by decide), if_neg (by decide), if_neg (by omega)]
  · intro hge
    unfold Measurement.data_key
    rw [hs]
    rw [if_neg (by decide), if_neg (by decide), if_pos hge]

/-- C10 (witness): the fallback key at a concrete unresolved element
measurement and the index key at a resolved one. -/
theorem C10_witness :
    (Measurement.data_key ⟨"element", "R9", "power", ⟨0, 1⟩, ⟨1, 10⟩, true, "absolute", "", -1⟩
        = some "R9:power")
      ∧ (Measurement.data_key ⟨"element", "R9", "power", ⟨0, 1⟩, ⟨1, 10⟩, true, "absolute", "", 0⟩
        = some "0:power") :=
  ⟨(C10_element_key_fallback
      ⟨"element", "R9", "power", ⟨0, 1⟩, ⟨1, 10⟩, true, "absolute", "", -1⟩ rfl).1 (by decide),
    (C10_element_key_fallback
      ⟨"element", "R9", "power", ⟨0, 1⟩, ⟨1, 10⟩, true, "absolute", "", 0⟩ rfl).2 (by decide)⟩

/-! ### XML generation helpers (source lines 388-590)

All string work is re-implemented over `List Char` so that concrete
documents evaluate inside the kernel.
-/

def joinSep (sep : String) : List String → String
  | [] => ""
  | [x] => x
  | x :: xs => x ++ sep ++ joinSep sep xs

/-- Python `s.replace(pat, rep)` (all occurrences, non-overlapping,
left-to-right); the fuel is the scanned length. -/
def replaceAllAux (pat rep : List Char) : Nat → List Char → List Char
  | _, [] => []
  | 0, s => s
  | fuel + 1, c :: rest =>
    if (c :: rest).take pat.length = pat then
      rep ++ replaceAllAux pat rep fuel ((c :: rest).drop pat.length)
    else c :: replaceAllAux pat rep fuel rest

def pyReplace (s pat rep : String) : String :=
  String.mk (replaceAllAux pat.data rep.data s.data.length s.data)

/-- `_esc`: XML-escape for text nodes. -/
def _esc (text : String) : String :=
  pyReplace (pyReplace (pyReplace text "&" "&amp;") "<" "&lt;") ">" "&gt;"

/-- `_esc_cdata`: escape for CDATA. -/
def _esc_cdata (text : String) : String :=
  pyReplace text "]]>" "]]]]><![CDATA[>"

/-- `json.dumps` escaping of one character (quote and backslash; the control
and non-ASCII escapes of `ensure_ascii` are not modelled — no claim input
uses them). -/
def jsonEscChar (c : Char) : List Char :=
  if c = '"' then ['\\', '"'] else if c = '\\' then ['\\', '\\'] else [c]

def jsonStr (s : String) : String :=
  "\"" ++ String.mk ((s.data.map jsonEscChar).flatten) ++ "\""

/-- `json.dumps` of a list of strings. -/
def jsonDumpsStrs (xs : List String) : String :=
  "[" ++ joinSep ", " (xs.map jsonStr) ++ "]"

/-- `json.dumps` of a list of ints. -/
def jsonDumpsInts (xs : List Int) : String :=
  "[" ++ joinSep ", " (xs.map intRepr) ++ "]"

def SIM_BASE_URL : String := "https://ccam80.github.io/circuitjs-moodle/circuitjs.html"

/-- `_build_sim_url`. -/
def _build_sim_url (ctz : String) (editable white_bg : Bool) (base_url : String)
    (html_escape : Bool) : String :=
  let sep := if html_escape then "&amp;" else "&"
  let parts := ["running=true"]
    ++ (if ctz ≠ "" then ["ctz=" ++ ctz] else [])
    ++ ["editable=" ++ (if editable then "true" else "false")]
    ++ (if white_bg then ["whiteBackground=true"] else [])
  base_url ++ "?" ++ joinSep sep parts

/-- `_derive_subscribe_params`: node identifiers and element keys, deduped
in first-appearance order. -/
def _derive_subscribe_params (measurements : List Measurement) :
    List String × List String :=
  measurements.foldl
    (fun st m =>
      if m.source_type = SOURCE_NODE then
        (if m.identifier ∈ st.1 then st.1 else st.1 ++ [m.identifier], st.2)
      else if m.source_type = SOURCE_ELEMENT then
        match m.data_key with
        | some key => (st.1, if key ≠ "" ∧ key ∉ st.2 then st.2 ++ [key] else st.2)
        | none => st
      else st)
    ([], [])

/-- One readout line of `_build_readout_html`. -/
def readoutLine (i : Nat) (m : Measurement) : String :=
  let bold := if m.graded then " style=\"font-weight:bold;\"" else ""
  let tag := if m.graded then " <span style=\"color:#090;\">(graded)</span>" else ""
  let iname := m.input_name i
  let pfx := (alookup PROPERTY_PFX m.property).getD "V"
  "    " ++ pfx ++ "<sub>" ++ m.identifier ++ "</sub> = <span id=\"val-" ++ iname ++ "\""
    ++ bold ++ ">&mdash;</span> " ++ m.unit ++ tag

/-- `_build_readout_html`. -/
def _build_readout_html (measurements : List Measurement) (has_integrity : Bool) : String :=
  let lines := measurements.enum.filterMap
    (fun im => if im.2.source_type = SOURCE_EXPRESSION then none
               else some (readoutLine im.1 im.2))
  let lines := lines ++ (if has_integrity then
    ["    <span id=\"integrity-status\" style=\"color:#999;\">Integrity: waiting...</span>"]
    else [])
  if lines ≠ [] then joinSep "<br/>\n" lines else "    (no measurements configured)"

/-- The graded, non-expression measurements with their positions (the
`graded` list of `_build_js_block`). -/
def gradedNonExpr (measurements : List Measurement) : List (Nat × Measurement) :=
  measurements.enum.filter
    (fun im => im.2.graded && !(im.2.source_type = SOURCE_EXPRESSION : Bool))

/-- `_build_js_block` (the `[[script]]` body; `None` defaults resolved by
the caller). -/
def _build_js_block (measurements : List Measurement) (nodes elements : List String)
    (rate : Int) (editable_indices : List Int) (has_integrity : Bool)
    (sim_url : String) : String :=
  let graded := gradedNonExpr measurements
  let js := "import \x7bstack_js\x7d from \x27[[cors src=\"stackjsiframe.js\"/]]\x27;\n\n"
  let js := js ++ String.join (graded.map (fun im =>
    let iname := im.2.input_name im.1
    "const " ++ iname ++ "Id = await stack_js.request_access_to_input(\"" ++ iname
      ++ "\", true);\n"
      ++ "const " ++ iname ++ "Input = document.getElementById(" ++ iname ++ "Id);\n"))
  let js := js ++ (if has_integrity then
    "const intId = await stack_js.request_access_to_input(\"ans_integrity\", true);\n"
      ++ "const intInput = document.getElementById(intId);\n"
    else "")
  let js := js
    ++ "const circId = await stack_js.request_access_to_input(\"ans_circuit\", true);\n"
    ++ "const circInput = document.getElementById(circId);\n"
    ++ "\n"
    ++ "var origUrl = \"" ++ sim_url ++ "\";\n"
    ++ "var savedCtz = circInput.value;\n"
    ++ "var simFrame = document.getElementById(\x27sim-frame\x27);\n"
    ++ "if (savedCtz) \x7b\n"
    ++ "  simFrame.src = origUrl.replace(/ctz=[^&]*/, \x27ctz=\x27 + savedCtz);\n"
    ++ "\x7d else \x7b\n"
    ++ "  simFrame.src = origUrl;\n"
    ++ "\x7d\n\n"
    ++ "simFrame.addEventListener(\x27load\x27, function() \x7b\n"
    ++ "  simFrame.contentWindow.postMessage(\x7b\n"
    ++ "    type: \x27circuitjs-subscribe\x27,\n"
    ++ "    nodes: " ++ jsonDumpsStrs nodes ++ ",\n"
    ++ "    elements: " ++ jsonDumpsStrs elements ++ ",\n"
    ++ "    rate: " ++ intRepr rate ++ ",\n"
    ++ "    editableIndices: " ++ jsonDumpsInts (sortBy intLe editable_indices) ++ "\n"
    ++ "  \x7d, \x27*\x27);\n"
    ++ "\x7d);\n\n"
    ++ "window.addEventListener(\x27message\x27, function(event) \x7b\n"
    ++ "  if (!event.data) return;\n\n"
    ++ "  if (event.data.type === \x27circuitjs-elements\x27 && event.data.ctz) \x7b\n"
    ++ "    circInput.value = event.data.ctz;\n"
    ++ "    circInput.dispatchEvent(new Event(\x27change\x27));\n"
    ++ "  \x7d\n\n"
    ++ "  if (event.data.type !== \x27circuitjs-data\x27) return;\n"
    ++ "  var v;\n\n"
  let js := js ++ String.join (measurements.enum.filterMap (fun im =>
    if im.2.source_type = SOURCE_EXPRESSION then none
    else
      let iname := im.2.input_name im.1
      let key := im.2.data_key.getD "None"
      some ("  v = event.data.values[\x27" ++ key ++ "\x27];\n"
        ++ "  if (v !== null && v !== undefined) document.getElementById(\x27val-"
        ++ iname ++ "\x27).textContent = v.toFixed(4);\n")))
  let js := js ++ "\n"
  let js := js ++ String.join (graded.map (fun im =>
    let iname := im.2.input_name im.1
    let key := im.2.data_key.getD "None"
    "  v = event.data.values[\x27" ++ key ++ "\x27];\n"
      ++ "  if (v !== null && v !== undefined) \x7b\n"
      ++ "    " ++ iname ++ "Input.value = v.toFixed(6);\n"
      ++ "    " ++ iname ++ "Input.dispatchEvent(new Event(\x27change\x27));\n"
      ++ "  \x7d\n"))
  let js := js ++ (if has_integrity then
    "\n  v = event.data.values[\x27integrity\x27];\n"
      ++ "  if (v !== null && v !== undefined) \x7b\n"
      ++ "    intInput.value = v.toString();\n"
      ++ "    intInput.dispatchEvent(new Event(\x27change\x27));\n"
      ++ "    var el = document.getElementById(\x27integrity-status\x27);\n"
      ++ "    if (el) \x7b\n"
      ++ "      if (v === 1) \x7b\n"
      ++ "        el.textContent = \x27Integrity: OK\x27;\n"
      ++ "        el.style.color = \x27#090\x27;\n"
      ++ "      \x7d else \x7b\n"
      ++ "        el.textContent = \x27Integrity: FAILED — restricted component modified\x27;\n"
      ++ "        el.style.color = \x27#c00\x27;\n"
      ++ "      \x7d\n"
      ++ "    \x7d\n"
      ++ "  \x7d\n"
    else "")
  js ++ "  document.getElementById(\x27status\x27).textContent = \x27(live)\x27;\n\x7d);"

/-! ### `generate_xml` (source lines 592-1040), as the ordered list of the
strings appended to `p`; the rendered document is their concatenation. -/

/-- `has_integrity = len(editable_indices) > 0`. -/
def hasIntegrityOf (editable_indices : List Int) : Bool := editable_indices.length > 0

/-- `graded = [(i, m) for i, m in enumerate(measurements) if m.graded]`. -/
def gradedOf (measurements : List Measurement) : List (Nat × Measurement) :=
  measurements.enum.filter (fun im => im.2.graded)

/-- `n_graded = len(graded) or 1`. -/
def nGradedOf (measurements : List Measurement) : Nat :=
  max (gradedOf measurements).length 1

/-- `prt_weight = _fmt(1.0 / n_graded)` (exact-rational model of the float
division). -/
def prtWeight (measurements : List Measurement) : String :=
  _fmt (qReciprocal (nGradedOf measurements))

/-- `value_node = '1' if has_integrity else '0'`. -/
def valueNodeOf (has_integrity : Bool) : String := if has_integrity then "1" else "0"

/-- `cat_block`. -/
def catBlock (category : String) : String :=
  if pyStripStr category ≠ "" then
    "  <question type=\"category\">\n    <category>\n      <text>" ++ _esc category
      ++ "</text>\n    </category>\n    <info format=\"html\">\n      <text/>\n"
      ++ "    </info>\n  </question>\n"
  else ""

/-- `qvar_lines` (target/tolerance per graded measurement, plus the
integrity expectation). -/
def qvarLinesOf (graded : List (Nat × Measurement)) (has_integrity : Bool) : List String :=
  (graded.map (fun im =>
    let iname := im.2.input_name im.1
    [(if im.2.target_expr ≠ "" then "target_" ++ (iname ++ ": " ++ im.2.target_expr ++ ";")
      else "target_" ++ (iname ++ ": " ++ _fmt im.2.target ++ ";")),
     "tol_" ++ (iname ++ ": " ++ _fmt im.2.tolerance ++ ";")])).flatten
    ++ (if has_integrity then ["expected_integrity: 1;"] else [])

/-- `qvars` with the custom block prepended. -/
def qvarsOf (graded : List (Nat × Measurement)) (has_integrity : Bool)
    (custom_qvars : String) : String :=
  let q := if qvarLinesOf graded has_integrity ≠ []
    then joinSep "\n" (qvarLinesOf graded has_integrity)
    else "/* no graded measurements */"
  if pyStripStr custom_qvars ≠ "" then pyStripStr custom_qvars ++ "\n" ++ q else q

/-- `target_lines` for the question text. -/
def targetLinesOf (graded : List (Nat × Measurement)) : List String :=
  graded.map (fun im =>
    let iname := im.2.input_name im.1
    "<strong>" ++ im.2.display_name ++ "</strong>: \x7b@target_" ++ iname ++ "@\x7d "
      ++ im.2.unit ++ " (&plusmn; \x7b@tol_" ++ iname ++ "@\x7d " ++ im.2.unit ++ ")")

def targetHtmlOf (graded : List (Nat × Measurement)) (hide_input : Bool) : String :=
  if ¬hide_input ∧ targetLinesOf graded ≠ [] then
    "<p>Targets: " ++ joinSep ", " (targetLinesOf graded) ++ "</p>\n\n"
  else ""

/-- The feedback-variables part of one PRT (single appended string). -/
def fbVarsPart (measurements : List Measurement) (m : Measurement) : String :=
  if m.source_type = SOURCE_EXPRESSION then
    let fb_lines := (measurements.enum.filterMap (fun im =>
        if im.2.source_type = SOURCE_EXPRESSION then none
        else some (im.2.display_name ++ ": " ++ im.2.input_name im.1 ++ ";")))
      ++ ["computed_sans: " ++ m.identifier ++ ";"]
    "        <feedbackvariables>\n          <text><![CDATA["
      ++ (joinSep " " fb_lines ++ "]]></text>\n        </feedbackvariables>\n")
  else
    "        <feedbackvariables>\n          <text/>\n        </feedbackvariables>\n"

/-- The integrity-gate node (node 0) of one PRT, emitted iff
`has_integrity` (source lines 876-908). -/
def gateNodeParts (prt_name : String) : List String :=
  ["        <node>\n",
   "          <name>0</name>\n",
   "          <description>Integrity gate</description>\n",
   "          <answertest>AlgEquiv</answertest>\n",
   "          <sans>ans_integrity</sans>\n",
   "          <tans>expected_integrity</tans>\n",
   "          <testoptions/>\n",
   "          <quiet>1</quiet>\n",
   "          <truescoremode>=</truescoremode>\n",
   "          <truescore>0.0</truescore>\n",
   "          <truepenalty/>\n",
   "          <truenextnode>1</truenextnode>\n",
   "          <trueanswernote>" ++ prt_name ++ "-0-T</trueanswernote>\n",
   "          <truefeedback format=\"html\">\n",
   "            <text/>\n",
   "          </truefeedback>\n",
   "          <falsescoremode>=</falsescoremode>\n",
   "          <falsescore>0.0</falsescore>\n",
   "          <falsepenalty/>\n",
   "          <falsenextnode>-1</falsenextnode>\n",
   "          <falseanswernote>" ++ prt_name ++ "-0-F</falseanswernote>\n",
   "          <falsefeedback format=\"html\">\n",
   "            <text><![CDATA[<p style=\"color:#c00;\">One or more restricted circuit "
     ++ "components were modified. Your answer cannot be graded.</p>]]></text>\n",
   "          </falsefeedback>\n",
   "        </node>\n"]

/-- The value-check node of one PRT (source lines 910-950).  Each
interpolated item is written `literal ++ (rest)` so the fixed prefix is the
left operand. -/
def valueNodeParts (prt_name value_node iname : String) (m : Measurement) : List String :=
  ["        <node>\n",
   "          <name>" ++ (value_node ++ "</name>\n"),
   "          <description>Check " ++ (_esc m.display_name ++ " against target</description>\n"),
   "          <answertest>"
     ++ ((if m.tolerance_type = "relative" then "NumRelative" else "NumAbsolute")
       ++ "</answertest>\n"),
   "          <sans>"
     ++ ((if m.source_type = SOURCE_EXPRESSION then "computed_sans" else iname) ++ "</sans>\n"),
   "          <tans>target_" ++ (iname ++ "</tans>\n"),
   "          <testoptions>tol_" ++ (iname ++ "</testoptions>\n"),
   "          <quiet>0</quiet>\n",
   "          <truescoremode>=</truescoremode>\n",
   "          <truescore>1.0</truescore>\n",
   "          <truepenalty/>\n",
   "          <truenextnode>-1</truenextnode>\n",
   "          <trueanswernote>" ++ (prt_name ++ "-" ++ value_node ++ "-T</trueanswernote>\n"),
   "          <truefeedback format=\"html\">\n",
   "            <text><![CDATA[<p>Correct! "
     ++ (m.display_name ++ " = \x7b@" ++ iname ++ "@\x7d " ++ m.unit ++ " is within \x7b@tol_"
       ++ iname ++ "@\x7d " ++ m.unit ++ " of the target \x7b@target_" ++ iname ++ "@\x7d "
       ++ m.unit ++ ".</p>]]></text>\n"),
   "          </truefeedback>\n",
   "          <falsescoremode>=</falsescoremode>\n",
   "          <falsescore>0.0</falsescore>\n",
   "          <falsepenalty/>\n",
   "          <falsenextnode>-1</falsenextnode>\n",
   "          <falseanswernote>" ++ (prt_name ++ "-" ++ value_node ++ "-F</falseanswernote>\n"),
   "          <falsefeedback format=\"html\">\n",
   "            <text><![CDATA[<p>Not quite. "
     ++ (m.display_name ++ " = \x7b@" ++ iname ++ "@\x7d " ++ m.unit ++ ", but the target is "
       ++ "\x7b@target_" ++ iname ++ "@\x7d " ++ m.unit ++ " (&plusmn; \x7b@tol_" ++ iname
       ++ "@\x7d " ++ m.unit ++ ").</p>]]></text>\n"),
   "          </falsefeedback>\n",
   "        </node>\n"]

/-- One scoring structure (`<prt>`), as appended for the `j`-th graded
measurement `(i, m)` (source lines 847-951). -/
def prtBlock (measurements : List Measurement) (has_integrity : Bool)
    (prt_weight : String) (j i : Nat) (m : Measurement) : List String :=
  ["      <prt>\n",
   "        <name>" ++ ("prt" ++ natRepr (j + 1) ++ "</name>\n"),
   "        <value>" ++ (prt_weight ++ "</value>\n"),
   "        <autosimplify>1</autosimplify>\n",
   "        <feedbackstyle>1</feedbackstyle>\n",
   fbVarsPart measurements m]
  ++ (if has_integrity then gateNodeParts ("prt" ++ natRepr (j + 1)) else [])
  ++ valueNodeParts ("prt" ++ natRepr (j + 1)) (valueNodeOf has_integrity)
      (m.input_name i) m
  ++ ["      </prt>\n"]

/-- All scoring structures, one per graded measurement. -/
def prtBlocks (measurements : List Measurement) (has_integrity : Bool) :
    List (List String) :=
  (gradedOf measurements).enum.map
    (fun jim => prtBlock measurements has_integrity (prtWeight measurements)
      jim.1 jim.2.1 jim.2.2)

/-- `_circuit_test_input()`. -/
def circuitTestInput : String :=
  "        <testinput>\n          <name>ans_circuit</name>\n          <value>\"\"\n</value>\n"
    ++ "        </testinput>\n"

/-- One expected block of a qtest. -/
def expectedPart (j : Nat) (score penalty note_suffix : String) : String :=
  let prt_name := "prt" ++ natRepr (j + 1)
  "        <expected>\n          <name>" ++ prt_name ++ "</name>\n"
    ++ "          <expectedscore>" ++ score ++ "</expectedscore>\n"
    ++ "          <expectedpenalty>" ++ penalty ++ "</expectedpenalty>\n"
    ++ "          <expectedanswernote>" ++ prt_name ++ note_suffix ++ "</expectedanswernote>\n"
    ++ "        </expected>\n"

/-- One test-input block for a graded input. -/
def testInputPart (iname value : String) : String :=
  "        <testinput>\n          <name>" ++ iname ++ "</name>\n"
    ++ "          <value>" ++ value ++ "</value>\n"
    ++ "        </testinput>\n"

/-- Test 1: all correct (source lines 962-984). -/
def qtest1Parts (measurements : List Measurement) (has_integrity : Bool) : List String :=
  let graded := gradedOf measurements
  ["      <qtest>\n",
   "        <testcase>1</testcase>\n",
   "        <description>All correct</description>\n"]
  ++ graded.map (fun im => testInputPart (im.2.input_name im.1) ("target_" ++ im.2.input_name im.1))
  ++ (if has_integrity then [testInputPart "ans_integrity" "1"] else [])
  ++ [circuitTestInput]
  ++ (List.range (nGradedOf measurements)).map
      (fun j => expectedPart j "1.0000000" "0.0000000" ("-" ++ valueNodeOf has_integrity ++ "-T"))
  ++ ["      </qtest>\n"]

/-- Test 2: all wrong (source lines 986-1008). -/
def qtest2Parts (measurements : List Measurement) (has_integrity : Bool) : List String :=
  let graded := gradedOf measurements
  ["      <qtest>\n",
   "        <testcase>2</testcase>\n",
   "        <description>All wrong</description>\n"]
  ++ graded.map (fun im => testInputPart (im.2.input_name im.1)
      ("target_" ++ im.2.input_name im.1 ++ " + tol_" ++ im.2.input_name im.1 ++ " + 1"))
  ++ (if has_integrity then [testInputPart "ans_integrity" "1"] else [])
  ++ [circuitTestInput]
  ++ (List.range (nGradedOf measurements)).map
      (fun j => expectedPart j "0.0000000" "0.1000000" ("-" ++ valueNodeOf has_integrity ++ "-F"))
  ++ ["      </qtest>\n"]

/-- Test 3: integrity failure (source lines 1010-1032), emitted iff an
integrity gate exists; all graded inputs at their targets, the integrity
flag at 0, every PRT expected to score 0 with the gate's false-branch
token. -/
def qtest3Parts (measurements : List Measurement) (has_integrity : Bool) : List String :=
  if has_integrity then
    ["      <qtest>\n",
     "        <testcase>3</testcase>\n",
     "        <description>Integrity failure</description>\n"]
    ++ (gradedOf measurements).map
        (fun im => testInputPart (im.2.input_name im.1) ("target_" ++ im.2.input_name im.1))
    ++ [testInputPart "ans_integrity" "0"]
    ++ [circuitTestInput]
    ++ (List.range (nGradedOf measurements)).map
        (fun j => expectedPart j "0.0000000" "0.1000000" "-0-F")
    ++ ["      </qtest>\n"]
  else []

/-- One `<input>` block for a graded input (source lines 783-802). -/
def inputBlockParts (iname must_verify show_validation : String) : List String :=
  ["      <input>\n",
   "        <name>" ++ iname ++ "</name>\n",
   "        <type>numerical</type>\n",
   "        <tans>target_" ++ iname ++ "</tans>\n",
   "        <boxsize>10</boxsize>\n",
   "        <strictsyntax>1</strictsyntax>\n",
   "        <insertstars>0</insertstars>\n",
   "        <syntaxhint/>\n",
   "        <syntaxattribute>0</syntaxattribute>\n",
   "        <forbidwords/>\n",
   "        <allowwords/>\n",
   "        <forbidfloat>0</forbidfloat>\n",
   "        <requirelowestterms>0</requirelowestterms>\n",
   "        <checkanswertype>0</checkanswertype>\n",
   "        <mustverify>" ++ must_verify ++ "</mustverify>\n",
   "        <showvalidation>" ++ show_validation ++ "</showvalidation>\n",
   "        <options/>\n",
   "      </input>\n"]

/-- The hidden integrity `<input>` block (source lines 805-823). -/
def integrityInputParts : List String :=
  ["      <input>\n",
   "        <name>ans_integrity</name>\n",
   "        <type>numerical</type>\n",
   "        <tans>expected_integrity</tans>\n",
   "        <boxsize>5</boxsize>\n",
   "        <strictsyntax>1</strictsyntax>\n",
   "        <insertstars>0</insertstars>\n",
   "        <syntaxhint/>\n",
   "        <syntaxattribute>0</syntaxattribute>\n",
   "        <forbidwords/>\n",
   "        <allowwords/>\n",
   "        <forbidfloat>0</forbidfloat>\n",
   "        <requirelowestterms>0</requirelowestterms>\n",
   "        <checkanswertype>0</checkanswertype>\n",
   "        <mustverify>0</mustverify>\n",
   "        <showvalidation>0</showvalidation>\n",
   "        <options/>\n",
   "      </input>\n"]

/-- The hidden circuit-state `<input>` block (source lines 826-843). -/
def circuitInputParts : List String :=
  ["      <input>\n",
   "        <name>ans_circuit</name>\n",
   "        <type>string</type>\n",
   "        <tans>\"\"</tans>\n",
   "        <boxsize>1</boxsize>\n",
   "        <strictsyntax>0</strictsyntax>\n",
   "        <insertstars>0</insertstars>\n",
   "        <syntaxhint/>\n",
   "        <syntaxattribute>0</syntaxattribute>\n",
   "        <forbidwords/>\n",
   "        <allowwords/>\n",
   "        <forbidfloat>0</forbidfloat>\n",
   "        <requirelowestterms>0</requirelowestterms>\n",
   "        <checkanswertype>0</checkanswertype>\n",
   "        <mustverify>0</mustverify>\n",
   "        <showvalidation>0</showvalidation>\n",
   "        <options/>\n",
   "      </input>\n"]

/-- Everything appended to `p` before the PRT loop (source lines 660-843). -/
def documentHead (name description ctz : String) (measurements : List Measurement)
    (editable_indices : List Int) (editable white_bg : Bool) (rate : Int)
    (hide_input : Bool) (base_url category custom_qvars : String) : List String :=
  let has_integrity := hasIntegrityOf editable_indices
  let ne := _derive_subscribe_params measurements
  let sim_url := _build_sim_url ctz editable white_bg base_url false
  let readout_html := _build_readout_html measurements has_integrity
  let js_block := _build_js_block measurements ne.1 ne.2 rate editable_indices
    has_integrity sim_url
  let graded := gradedOf measurements
  let n_graded := nGradedOf measurements
  let input_style := if hide_input then " style=\"display:none;\"" else ""
  let must_verify := if hide_input then "0" else "1"
  let show_validation := if hide_input then "0" else "1"
  ["<?xml version=\"1.0\" encoding=\"UTF-8\"?>\n<quiz>\n",
   catBlock category,
   "  <question type=\"stack\">\n",
   "    <name>\n      <text>" ++ _esc name ++ "</text>\n    </name>\n",
   "    <questiontext format=\"html\">\n      <text><![CDATA[",
   "<p>" ++ _esc_cdata description ++ "</p>\n\n",
   targetHtmlOf graded hide_input,
   "<p><em>Edit the simulated circuit, the result will be read when you click "
     ++ "&quot;Check&quot;.</em></p>\n\n",
   "[[iframe height=\"640px\" width=\"830px\"]]\n",
   "<div style=\"font-family:sans-serif;\">\n\n",
   "  <iframe id=\"sim-frame\"\n",
   "    width=\"800\" height=\"550\" style=\"border:1px solid #ccc;\">\n",
   "  </iframe>\n\n",
   "  <div id=\"readout\" style=\"display:none; font-family:monospace; padding:8px; "
     ++ "font-size:14px;\n",
   "    background:#f4f4f4; border:1px solid #ddd; margin-top:4px;\">\n",
   readout_html ++ "\n",
   "    <div id=\"status\" style=\"color:#999; margin-top:4px;\">"
     ++ "(waiting for simulation...)</div>\n",
   "  </div>\n\n</div>\n\n",
   "[[script type=\"module\"]]\n",
   js_block ++ "\n",
   "[[/script]]\n[[/iframe]]\n\n"]
  ++ (graded.map (fun im =>
      let iname := im.2.input_name im.1
      ["<div" ++ input_style ++ ">\n",
       "  <p>" ++ im.2.display_name ++ ": [[input:" ++ iname ++ "]] " ++ im.2.unit
         ++ " [[validation:" ++ iname ++ "]]</p>\n",
       "</div>\n"])).flatten
  ++ (if has_integrity then
      ["<div style=\"display:none;\">\n",
       "  <p>[[input:ans_integrity]] [[validation:ans_integrity]]</p>\n",
       "</div>\n"]
      else [])
  ++ ["<div style=\"display:none;\">\n",
      "  <p>[[input:ans_circuit]] [[validation:ans_circuit]]</p>\n",
      "</div>\n",
      "]]></text>\n    </questiontext>\n",
      "    <generalfeedback format=\"html\">\n",
      "      <text><![CDATA["]
  ++ graded.map (fun im =>
      let iname := im.2.input_name im.1
      "<p>" ++ im.2.display_name ++ ": target = \x7b@target_" ++ iname ++ "@\x7d "
        ++ im.2.unit ++ " (&plusmn; \x7b@tol_" ++ iname ++ "@\x7d " ++ im.2.unit
        ++ "), measured = \x7b@" ++ iname ++ "@\x7d " ++ im.2.unit ++ "</p>\n")
  ++ ["]]></text>\n    </generalfeedback>\n",
      "    <defaultgrade>1</defaultgrade>\n",
      "    <penalty>0.1</penalty>\n",
      "    <hidden>0</hidden>\n",
      "    <idnumber/>\n",
      "      <stackversion>\n        <text/>\n      </stackversion>\n",
      "      <questionvariables>\n        <text><![CDATA["
        ++ qvarsOf graded has_integrity custom_qvars ++ "\n]]></text>\n"
        ++ "      </questionvariables>\n",
      "      <specificfeedback format=\"html\">\n        <text><![CDATA["
        ++ String.join ((List.range n_graded).map
            (fun j => "[[feedback:prt" ++ natRepr (j + 1) ++ "]]"))
        ++ "]]></text>\n      </specificfeedback>\n",
      "      <questionnote format=\"html\">\n        <text><![CDATA["
        ++ (if graded ≠ [] then
            joinSep ", " (graded.map (fun im =>
              im.2.display_name ++ "=\x7b@target_" ++ im.2.input_name im.1 ++ "@\x7d"))
            else "no graded measurements")
        ++ "]]></text>\n      </questionnote>\n",
      "      <questiondescription format=\"html\">\n        <text/>\n"
        ++ "      </questiondescription>\n",
      "      <questionsimplify>1</questionsimplify>\n",
      "      <assumepositive>0</assumepositive>\n",
      "      <assumereal>0</assumereal>\n",
      "      <isbroken>0</isbroken>\n",
      "      <prtcorrect format=\"html\">\n        <text><![CDATA[<span style=\"font-size: "
        ++ "1.5em; color:green;\"><i class=\"fa fa-check\"></i></span> "
        ++ "Correct answer, well done.]]></text>\n      </prtcorrect>\n",
      "      <prtpartiallycorrect format=\"html\">\n        <text><![CDATA[<span "
        ++ "style=\"font-size: 1.5em; color:orange;\"><i class=\"fa fa-adjust\"></i></span> "
        ++ "Your answer is partially correct.]]></text>\n      </prtpartiallycorrect>\n",
      "      <prtincorrect format=\"html\">\n        <text><![CDATA[<span style=\"font-size: "
        ++ "1.5em; color:red;\"><i class=\"fa fa-times\"></i></span> "
        ++ "Incorrect answer.]]></text>\n      </prtincorrect>\n",
      "      <decimals>.</decimals>\n",
      "      <scientificnotation>*10</scientificnotation>\n",
      "      <multiplicationsign>dot</multiplicationsign>\n",
      "      <sqrtsign>1</sqrtsign>\n",
      "      <complexno>j</complexno>\n",
      "      <inversetrig>cos-1</inversetrig>\n",
      "      <logicsymbol>lang</logicsymbol>\n",
      "      <matrixparens>[</matrixparens>\n",
      "      <variantsselectionseed/>\n"]
  ++ (graded.map (fun im =>
      inputBlockParts (im.2.input_name im.1) must_verify show_validation)).flatten
  ++ (if has_integrity then integrityInputParts else [])
  ++ circuitInputParts

/-- The three self-test scenarios (all-correct, all-wrong, and — iff the
gate exists — integrity-failure). -/
def documentTests (measurements : List Measurement) (has_integrity : Bool) : List String :=
  qtest1Parts measurements has_integrity
    ++ qtest2Parts measurements has_integrity
    ++ qtest3Parts measurements has_integrity

def documentTail : List String :=
  ["    <tags>\n      <tag>\n        <text>circuitjs</text>\n      </tag>\n    </tags>\n",
   "  </question>\n</quiz>\n"]

/-- The full `p` list of `generate_xml`. -/
def generate_xml_parts (name description ctz : String) (measurements : List Measurement)
    (editable_indices : List Int) (editable white_bg : Bool) (rate : Int)
    (hide_input : Bool) (base_url category custom_qvars : String) : List String :=
  documentHead name description ctz measurements editable_indices editable white_bg
      rate hide_input base_url category custom_qvars
    ++ (prtBlocks measurements (hasIntegrityOf editable_indices)).flatten
    ++ documentTests measurements (hasIntegrityOf editable_indices)
    ++ documentTail

/-- `generate_xml` returns `''.join(p)`. -/
def generate_xml (name description ctz : String) (measurements : List Measurement)
    (editable_indices : List Int) (editable white_bg : Bool) (rate : Int)
    (hide_input : Bool) (base_url category custom_qvars : String) : String :=
  String.join (generate_xml_parts name description ctz measurements editable_indices
    editable white_bg rate hide_input base_url category custom_qvars)

/-! ### String-disambiguation helpers for the emission proofs -/

/-- Two strings differ when the second does not start with the first's
prefix. -/
theorem append_ne_of_take {p q : String} (s : String)
    (h : q.data.take p.data.length ≠ p.data) : p ++ s ≠ q := by
  intro he
  apply h
  rw [← he, String.data_append, List.take_left]

theorem hasIntegrityOf_iff (editable_indices : List Int) :
    hasIntegrityOf editable_indices = true ↔ editable_indices ≠ [] := by
  unfold hasIntegrityOf
  rw [decide_eq_true_iff]
  exact ⟨fun h => List.ne_nil_of_length_pos h,
    fun h => List.length_pos.mpr h⟩

/-- The gate-description line used to witness the integrity gate. -/
def gateDescLine : String := "          <description>Integrity gate</description>\n"

theorem gateDesc_ne_fbVars (measurements : List Measurement) (m : Measurement) :
    gateDescLine ≠ fbVarsPart measurements m := by
  unfold fbVarsPart
  by_cases hs : m.source_type = SOURCE_EXPRESSION
  · rw [if_pos hs]
    intro he
    refine absurd he.symm (append_ne_of_take _ ?_)
    decide
  · rw [if_neg hs]
    decide

theorem gateDesc_not_mem_valueNode (prt_name value_node iname : String) (m : Measurement) :
    gateDescLine ∉ valueNodeParts prt_name value_node iname m := by
  intro h
  unfold valueNodeParts at h
  simp only [List.mem_cons, List.not_mem_nil, or_false] at h
  rcases h with h|h|h|h|h|h|h|h|h|h|h|h|h|h|h|h|h|h|h|h|h|h|h|h|h
  · exact absurd h (by decide)
  · refine absurd h.symm (append_ne_of_take _ ?_); decide
  · refine absurd h.symm (append_ne_of_take _ ?_); decide
  · refine absurd h.symm (append_ne_of_take _ ?_); decide
  · refine absurd h.symm (append_ne_of_take _ ?_); decide
  · refine absurd h.symm (append_ne_of_take _ ?_); decide
  · refine absurd h.symm (append_ne_of_take _ ?_); decide
  · exact absurd h (by decide)
  · exact absurd h (by decide)
  · exact absurd h (by decide)
  · exact absurd h (by decide)
  · exact absurd h (by decide)
  · refine absurd h.symm (append_ne_of_take _ ?_); decide
  · exact absurd h (by decide)
  · refine absurd h.symm (append_ne_of_take _ ?_); decide
  · exact absurd h (by decide)
  · exact absurd h (by decide)
  · exact absurd h (by decide)
  · exact absurd h (by decide)
  · exact absurd h (by decide)
  · refine absurd h.symm (append_ne_of_take _ ?_); decide
  · exact absurd h (by decide)
  · refine absurd h.symm (append_ne_of_take _ ?_); decide
  · exact absurd h (by decide)
  · exact absurd h (by decide)

theorem gateDesc_mem_gateNode (prt_name : String) :
    gateDescLine ∈ gateNodeParts prt_name := by
  unfold gateNodeParts
  exact List.mem_cons_of_mem _ (List.mem_cons_of_mem _ (List.mem_cons_self _ _))

theorem gateDesc_not_mem_prtBlock_false (measurements : List Measurement)
    (prt_weight : String) (j i : Nat) (m : Measurement) :
    gateDescLine ∉ prtBlock measurements false prt_weight j i m := by
  intro h
  unfold prtBlock at h
  rw [if_neg (by decide)] at h
  rcases List.mem_append.mp h with h | h
  · rcases List.mem_append.mp h with h | h
    · rcases List.mem_append.mp h with h | h
      · simp only [List.mem_cons, List.not_mem_nil, or_false] at h
        rcases h with h|h|h|h|h|h
        · exact absurd h (by decide)
        · refine absurd h.symm (append_ne_of_take _ ?_); decide
        · refine absurd h.symm (append_ne_of_take _ ?_); decide
        · exact absurd h (by decide)
        · exact absurd h (by decide)
        · exact gateDesc_ne_fbVars measurements m h
      · exact List.not_mem_nil _ h
    · exact gateDesc_not_mem_valueNode _ _ _ _ h
  · rw [List.mem_singleton] at h
    exact absurd h (by decide)

theorem gateDesc_mem_prtBlock_true (measurements : List Measurement)
    (prt_weight : String) (j i : Nat) (m : Measurement) :
    gateDescLine ∈ prtBlock measurements true prt_weight j i m := by
  unfold prtBlock
  rw [if_pos rfl]
  exact List.mem_append.mpr (Or.inl (List.mem_append.mpr (Or.inl
    (List.mem_append.mpr (Or.inr (gateDesc_mem_gateNode _))))))

theorem gateDesc_mem_prtBlock_iff (measurements : List Measurement) (has_integrity : Bool)
    (prt_weight : String) (j i : Nat) (m : Measurement) :
    gateDescLine ∈ prtBlock measurements has_integrity prt_weight j i m
      ↔ has_integrity = true := by
  cases has_integrity
  · exact ⟨fun h => absurd h (gateDesc_not_mem_prtBlock_false measurements prt_weight j i m),
      fun h => absurd h (by decide)⟩
  · exact ⟨fun _ => rfl, fun _ => gateDesc_mem_prtBlock_true measurements prt_weight j i m⟩

theorem mem_prtBlock_of_mem_gateNode {x : String} (measurements : List Measurement)
    (prt_weight : String) (j i : Nat) (m : Measurement)
    (hx : x ∈ gateNodeParts ("prt" ++ natRepr (j + 1))) :
    x ∈ prtBlock measurements true prt_weight j i m := by
  unfold prtBlock
  rw [if_pos rfl]
  exact List.mem_append.mpr (Or.inl (List.mem_append.mpr (Or.inl
    (List.mem_append.mpr (Or.inr hx)))))

theorem expectedIntegrity_not_mem_qvarBase (graded : List (Nat × Measurement)) :
    "expected_integrity: 1;" ∉ (graded.map (fun im =>
      let iname := im.2.input_name im.1
      [(if im.2.target_expr ≠ "" then "target_" ++ (iname ++ ": " ++ im.2.target_expr ++ ";")
        else "target_" ++ (iname ++ ": " ++ _fmt im.2.target ++ ";")),
       "tol_" ++ (iname ++ ": " ++ _fmt im.2.tolerance ++ ";")])).flatten := by
  intro h
  obtain ⟨l, hl, hx⟩ := List.mem_flatten.mp h
  obtain ⟨im, _, rfl⟩ := List.mem_map.mp hl
  simp only [List.mem_cons, List.not_mem_nil, or_false] at hx
  rcases hx with hx | hx
  · by_cases ht : im.2.target_expr ≠ ""
    · rw [if_pos ht] at hx
      refine absurd hx.symm (append_ne_of_take _ ?_); decide
    · rw [if_neg ht] at hx
      refine absurd hx.symm (append_ne_of_take _ ?_); decide
  · refine absurd hx.symm (append_ne_of_take _ ?_); decide

/-! ### Claim C3 -/

/-- Modelled from the spec: "the configuration declares a non-empty strict
subset of elements as student-editable" — the editable index list is
non-empty and omits at least one element of a circuit with
`element_count` elements.  (`generate_xml` itself never receives the
element list, so this condition exists only at the specification level.) -/
def specStrictEditableSubset (editable_indices : List Int) (element_count : Nat) : Prop :=
  editable_indices ≠ [] ∧ ∃ i ∈ List.range element_count, ((i : Int) ∉ editable_indices)

instance (editable_indices : List Int) (element_count : Nat) :
    Decidable (specStrictEditableSubset editable_indices element_count) := by
  unfold specStrictEditableSubset
  infer_instance

/-- C3 (amended): the integrity gate (PRT node with state id 0, comparing
`ans_integrity` against `expected_integrity`, whose question variable is
fixed at 1) is emitted in each graded measurement's scoring structure iff
the editable-index list is non-empty — strictness of the subset is not
checked (the generator never sees the element count). -/
theorem C3_integrity_gate (measurements : List Measurement) (editable_indices : List Int) :
    (∀ pb ∈ prtBlocks measurements (hasIntegrityOf editable_indices),
      (gateDescLine ∈ pb ↔ editable_indices ≠ [])
        ∧ (editable_indices ≠ [] →
            "          <name>0</name>\n" ∈ pb
              ∧ "          <sans>ans_integrity</sans>\n" ∈ pb
              ∧ "          <tans>expected_integrity</tans>\n" ∈ pb))
    ∧ (("expected_integrity: 1;"
          ∈ qvarLinesOf (gradedOf measurements) (hasIntegrityOf editable_indices))
        ↔ editable_indices ≠ []) := by
  constructor
  · intro pb hpb
    obtain ⟨jim, _, rfl⟩ := List.mem_map.mp hpb
    constructor
    · rw [gateDesc_mem_prtBlock_iff, hasIntegrityOf_iff]
    · intro he
      have hi : hasIntegrityOf editable_indices = true := (hasIntegrityOf_iff _).mpr he
      rw [hi]
      refine ⟨?_, ?_, ?_⟩
      · exact mem_prtBlock_of_mem_gateNode _ _ _ _ _
          (List.mem_cons_of_mem _ (List.mem_cons_self _ _))
      · exact mem_prtBlock_of_mem_gateNode _ _ _ _ _
          (List.mem_cons_of_mem _ (List.mem_cons_of_mem _ (List.mem_cons_of_mem _
            (List.mem_cons_of_mem _ (List.mem_cons_self _ _)))))
      · exact mem_prtBlock_of_mem_gateNode _ _ _ _ _
          (List.mem_cons_of_mem _ (List.mem_cons_of_mem _ (List.mem_cons_of_mem _
            (List.mem_cons_of_mem _ (List.mem_cons_of_mem _ (List.mem_cons_self _ _))))))
  · constructor
    · intro h
      cases hhi : hasIntegrityOf editable_indices
      · exfalso
        rw [hhi] at h
        unfold qvarLinesOf at h
        rw [if_neg (by decide)] at h
        rw [List.append_nil] at h
        exact expectedIntegrity_not_mem_qvarBase (gradedOf measurements) h
      · exact (hasIntegrityOf_iff _).mp hhi
    · intro he
      rw [(hasIntegrityOf_iff _).mpr he]
      unfold qvarLinesOf
      rw [if_pos rfl]
      exact List.mem_append.mpr (Or.inr (List.mem_singleton.mpr rfl))

/-- Concrete input for the C3 counterexample and witness. -/
def c3Meas : Measurement := ⟨"node", "VA", "nodeVoltage", ⟨5, 1⟩, ⟨1, 10⟩, true, "absolute", "", -1⟩

/-- C3 (counterexample): with a one-element circuit whose single element is
editable, the editable set is the whole element set — not a strict subset —
yet the integrity gate is still emitted in the generated document. -/
theorem C3_counterexample :
    ¬ specStrictEditableSubset [0] 1
      ∧ gateDescLine ∈ generate_xml_parts "Q" "D" "Z" [c3Meas] [0] true false 2 false
          SIM_BASE_URL "" "" := by
  refine ⟨by decide, ?_⟩
  unfold generate_xml_parts
  refine List.mem_append.mpr (Or.inl (List.mem_append.mpr (Or.inl
    (List.mem_append.mpr (Or.inr ?_)))))
  refine List.mem_flatten.mpr
    ⟨prtBlock [c3Meas] (hasIntegrityOf [0]) (prtWeight [c3Meas]) 0 0 c3Meas, ?_, ?_⟩
  · unfold prtBlocks
    exact List.mem_map.mpr ⟨(0, (0, c3Meas)), by decide, rfl⟩
  · exact gateDesc_mem_prtBlock_true [c3Meas] (prtWeight [c3Meas]) 0 0 c3Meas

/-- C3 (witness): the amended theorem at a concrete configuration with one
editable element index. -/
theorem C3_witness :
    (gateDescLine ∈ (prtBlocks [c3Meas] (hasIntegrityOf [1])).headD [] ↔ ([1] : List Int) ≠ [])
      ∧ ("expected_integrity: 1;" ∈ qvarLinesOf (gradedOf [c3Meas]) (hasIntegrityOf [1])
        ↔ ([1] : List Int) ≠ []) :=
  ⟨((C3_integrity_gate [c3Meas] [1]).1 _ (List.mem_cons_self _ _)).1,
    (C3_integrity_gate [c3Meas] [1]).2⟩

/-! ### Claim C6 -/

/-- C6: the integrity-failure self-test is emitted iff an integrity gate
exists (editable indices non-empty); when emitted it is part of the
generated document, sets every graded input to its target and the
integrity flag to `0`, and for every scoring structure (`prt1` …
`prt{n_graded}`) expects score 0 with penalty 0.1 and the gate's
false-branch token `{structure-name}-0-F`, regardless of the value-check
branch. -/
theorem C6_integrity_failure_scenario (name description ctz : String)
    (measurements : List Measurement) (editable_indices : List Int)
    (editable white_bg : Bool) (rate : Int) (hide_input : Bool)
    (base_url category custom_qvars : String) :
    (qtest3Parts measurements (hasIntegrityOf editable_indices) ≠ [] ↔ editable_indices ≠ [])
    ∧ (∀ part ∈ qtest3Parts measurements (hasIntegrityOf editable_indices),
        part ∈ generate_xml_parts name description ctz measurements editable_indices
          editable white_bg rate hide_input base_url category custom_qvars)
    ∧ (editable_indices ≠ [] →
        testInputPart "ans_integrity" "0"
            ∈ qtest3Parts measurements (hasIntegrityOf editable_indices)
          ∧ (∀ im ∈ gradedOf measurements,
              testInputPart (im.2.input_name im.1) ("target_" ++ im.2.input_name im.1)
                ∈ qtest3Parts measurements (hasIntegrityOf editable_indices))
          ∧ (∀ j, j < nGradedOf measurements →
              expectedPart j "0.0000000" "0.1000000" "-0-F"
                ∈ qtest3Parts measurements (hasIntegrityOf editable_indices))) := by
  refine ⟨?_, ?_, ?_⟩
  · cases hhi : hasIntegrityOf editable_indices
    · have he : editable_indices = [] := by
        by_contra hne
        rw [(hasIntegrityOf_iff _).mpr hne] at hhi
        exact absurd hhi (by decide)
      constructor
      · intro h
        exfalso
        apply h
        unfold qtest3Parts
        rw [if_neg (by decide)]
      · intro h
        exact absurd he h
    · have he : editable_indices ≠ [] := (hasIntegrityOf_iff _).mp hhi
      constructor
      · intro _
        exact he
      · intro _
        unfold qtest3Parts
        rw [if_pos rfl]
        intro hcon
        have := congrArg List.length hcon
        simp at this
  · intro part hp
    unfold generate_xml_parts documentTests
    exact List.mem_append.mpr (Or.inl (List.mem_append.mpr (Or.inr
      (List.mem_append.mpr (Or.inr hp)))))
  · intro he
    rw [(hasIntegrityOf_iff _).mpr he]
    unfold qtest3Parts
    rw [if_pos rfl]
    refine ⟨?_, ?_, ?_⟩
    · exact List.mem_append.mpr (Or.inl (List.mem_append.mpr (Or.inl
        (List.mem_append.mpr (Or.inl (List.mem_append.mpr (Or.inr
          (List.mem_singleton.mpr rfl))))))))
    · intro im him
      exact List.mem_append.mpr (Or.inl (List.mem_append.mpr (Or.inl
        (List.mem_append.mpr (Or.inl (List.mem_append.mpr (Or.inl
          (List.mem_append.mpr (Or.inr (List.mem_map.mpr ⟨im, him, rfl⟩))))))))))
    · intro j hj
      exact List.mem_append.mpr (Or.inl (List.mem_append.mpr (Or.inr
        (List.mem_map.mpr ⟨j, List.mem_range.mpr hj, rfl⟩))))

/-- Concrete input for the C6 witness. -/
def c6Meas : Measurement := ⟨"node", "VB", "nodeVoltage", ⟨2, 1⟩, ⟨1, 10⟩, true, "absolute", "", -1⟩

/-- C6 (witness): the theorem at a concrete configuration — the
integrity-failure test sets `ans1` to its target and `ans_integrity` to 0,
expects `prt1` to score 0 with the `-0-F` note, and is part of the
document. -/
theorem C6_witness :
    testInputPart "ans_integrity" "0" ∈ qtest3Parts [c6Meas] (hasIntegrityOf [4])
      ∧ testInputPart (c6Meas.input_name 0) ("target_" ++ c6Meas.input_name 0)
          ∈ qtest3Parts [c6Meas] (hasIntegrityOf [4])
      ∧ expectedPart 0 "0.0000000" "0.1000000" "-0-F" ∈ qtest3Parts [c6Meas] (hasIntegrityOf [4])
      ∧ testInputPart "ans_integrity" "0" ∈ generate_xml_parts "Q" "D" "Z" [c6Meas] [4]
          true false 2 false SIM_BASE_URL "" "" :=
  ⟨((C6_integrity_failure_scenario "Q" "D" "Z" [c6Meas] [4] true false 2 false
      SIM_BASE_URL "" "").2.2 (by decide)).1,
    ((C6_integrity_failure_scenario "Q" "D" "Z" [c6Meas] [4] true false 2 false
      SIM_BASE_URL "" "").2.2 (by decide)).2.1 (0, c6Meas) (by decide),
    ((C6_integrity_failure_scenario "Q" "D" "Z" [c6Meas] [4] true false 2 false
      SIM_BASE_URL "" "").2.2 (by decide)).2.2 0 (by decide),
    (C6_integrity_failure_scenario "Q" "D" "Z" [c6Meas] [4] true false 2 false
      SIM_BASE_URL "" "").2.1 _
      (((C6_integrity_failure_scenario "Q" "D" "Z" [c6Meas] [4] true false 2 false
        SIM_BASE_URL "" "").2.2 (by decide)).1)⟩

/-! ### Claim C9 -/

/-- C9: the generated document consists of the head, then exactly one
scoring structure per graded measurement, then the self-test scenarios and
tail; each structure is one `<prt>…</prt>` block carrying weight
`_fmt(1 / n_graded)` with `n_graded` the graded count taken with a minimum
of 1. -/
theorem C9_prt_structures (name description ctz : String)
    (measurements : List Measurement) (editable_indices : List Int)
    (editable white_bg : Bool) (rate : Int) (hide_input : Bool)
    (base_url category custom_qvars : String) :
    (generate_xml_parts name description ctz measurements editable_indices editable
        white_bg rate hide_input base_url category custom_qvars
      = documentHead name description ctz measurements editable_indices editable
          white_bg rate hide_input base_url category custom_qvars
        ++ (prtBlocks measurements (hasIntegrityOf editable_indices)).flatten
        ++ documentTests measurements (hasIntegrityOf editable_indices)
        ++ documentTail)
    ∧ (prtBlocks measurements (hasIntegrityOf editable_indices)).length
        = (gradedOf measurements).length
    ∧ nGradedOf measurements = max (gradedOf measurements).length 1
    ∧ (∀ pb ∈ prtBlocks measurements (hasIntegrityOf editable_indices),
        pb.headD "" = "      <prt>\n"
          ∧ pb.getLastD "" = "      </prt>\n"
          ∧ ("        <value>" ++ (_fmt (qReciprocal (nGradedOf measurements))
              ++ "</value>\n")) ∈ pb) := by
  refine ⟨rfl, ?_, rfl, ?_⟩
  · unfold prtBlocks
    rw [List.length_map, List.enum_length]
  · intro pb hpb
    obtain ⟨jim, _, rfl⟩ := List.mem_map.mp hpb
    refine ⟨rfl, ?_, ?_⟩
    · show (prtBlock _ _ _ _ _ _).getLastD "" = "      </prt>\n"
      unfold prtBlock
      rw [List.getLastD_eq_getLast?, List.getLast?_concat]
      rfl
    · exact List.mem_append.mpr (Or.inl (List.mem_append.mpr (Or.inl
        (List.mem_append.mpr (Or.inl (List.mem_cons_of_mem _ (List.mem_cons_of_mem _
          (List.mem_cons_self _ _))))))))

/-- Concrete input for the C9 witness. -/
def c9Meas : Measurement := ⟨"node", "VC", "nodeVoltage", ⟨3, 1⟩, ⟨1, 10⟩, true, "absolute", "", -1⟩

/-- C9 (witness): a two-measurement configuration (one graded) produces one
structure opening with `<prt>`, closing with `</prt>` and containing the
weight `1` (= `_fmt(1/1)`). -/
theorem C9_witness :
    ((prtBlocks [c9Meas] (hasIntegrityOf [])).headD []).headD "" = "      <prt>\n"
      ∧ ((prtBlocks [c9Meas] (hasIntegrityOf [])).headD []).getLastD "" = "      </prt>\n"
      ∧ ("        <value>" ++ (_fmt (qReciprocal (nGradedOf [c9Meas])) ++ "</value>\n"))
          ∈ (prtBlocks [c9Meas] (hasIntegrityOf [])).headD [] :=
  (C9_prt_structures "Q" "D" "Z" [c9Meas] [] true false 2 false SIM_BASE_URL "" "").2.2.2
    _ (List.mem_cons_self _ _)

end QGen
